import Mathlib

/-!
Verification of the simpleperf core (record codec, record cache, call-chain
aggregator, DSO symbol lookup, event-file group opening) against a shallow
embedding of the C++ sources in `simpleperf/record.cpp`, `callchain.cpp`,
`dso.cpp` and `event_selection_set.cpp`.

Buffers of `char` are modelled as `List Nat` with every byte `< 256`;
fixed-width machine integers are modelled as `Nat`, with an explicit
`% 2 ^ w` wherever the C++ code performs arithmetic that can wrap.
-/

namespace Simpleperf

/-! ## Byte-level primitives

`MoveToBinaryFormat`/`MoveFromBinaryFormat` in `record.cpp` memcpy fixed-width
little-endian integers in and out of `char` buffers.  `natToBytes k v` is the
little-endian image of `v` in `k` bytes; `bytesToNat` folds bytes back. -/

/-- Little-endian encoding of `v` into exactly `k` bytes (the image of
`MoveToBinaryFormat` for a `k`-byte integer). -/
def natToBytes : Nat → Nat → List Nat
  | 0, _ => []
  | k + 1, v => v % 256 :: natToBytes k (v / 256)

/-- Little-endian decoding of a byte list. -/
def bytesToNat : List Nat → Nat
  | [] => 0
  | b :: rest => b + 256 * bytesToNat rest

/-- Read `k` bytes from the front of a buffer as a little-endian integer,
returning the value and the remaining buffer (the image of
`MoveFromBinaryFormat` for a `k`-byte integer). -/
def rdN (k : Nat) (l : List Nat) : Nat × List Nat :=
  (bytesToNat (l.take k), l.drop k)

theorem length_natToBytes (k v : Nat) : (natToBytes k v).length = k := by
  induction k generalizing v with
  | zero => rfl
  | succ k ih => simp [natToBytes, ih]

theorem bytesToNat_natToBytes (k v : Nat) :
    bytesToNat (natToBytes k v) = v % 256 ^ k := by
  induction k generalizing v with
  | zero => simp [natToBytes, bytesToNat, Nat.mod_one]
  | succ k ih =>
    simp only [natToBytes, bytesToNat, ih]
    rw [pow_succ, Nat.mul_comm (256 ^ k) 256, Nat.mod_mul]

theorem bytesToNat_append_natToBytes (k v : Nat) (rest : List Nat) :
    (natToBytes k v ++ rest).take k = natToBytes k v ∧
    (natToBytes k v ++ rest).drop k = rest := by
  constructor
  · rw [List.take_left' (length_natToBytes k v)]
  · rw [List.drop_left' (length_natToBytes k v)]

@[simp] theorem rdN_natToBytes_append (k v : Nat) (rest : List Nat) :
    rdN k (natToBytes k v ++ rest) = (v % 256 ^ k, rest) := by
  obtain ⟨h1, h2⟩ := bytesToNat_append_natToBytes k v rest
  simp [rdN, h1, h2, bytesToNat_natToBytes]

theorem natToBytes_bytesToNat (l : List Nat) (hb : ∀ b ∈ l, b < 256) :
    natToBytes l.length (bytesToNat l) = l := by
  induction l with
  | nil => rfl
  | cons b rest ih =>
    have hb0 : b < 256 := hb b (by simp)
    simp only [List.length_cons, natToBytes, bytesToNat]
    have h1 : (b + 256 * bytesToNat rest) % 256 = b := by
      rw [Nat.add_mul_mod_self_left]
      exact Nat.mod_eq_of_lt hb0
    have h2 : (b + 256 * bytesToNat rest) / 256 = bytesToNat rest := by omega
    rw [h1, h2, ih (fun x hx => hb x (by simp [hx]))]

theorem natToBytes_lt (k v : Nat) : ∀ b ∈ natToBytes k v, b < 256 := by
  induction k generalizing v with
  | zero => simp [natToBytes]
  | succ k ih =>
    intro b hb
    simp only [natToBytes, List.mem_cons] at hb
    rcases hb with rfl | hb
    · exact Nat.mod_lt _ (by omega)
    · exact ih _ b hb

/-! ## Alignment and padded C-strings

`Align(value, alignment)` in `utils.h` rounds `value` up to a multiple of
`alignment`.  Strings are written by `strcpy` into a zero-initialised
`std::vector<char>`, so a written string occupies its bytes, one NUL, and
zero padding up to the aligned length. -/

/-- `Align(value, alignment)` from `utils.h`: round up to a multiple. -/
def alignUp (x a : Nat) : Nat := (x + a - 1) / a * a

theorem le_alignUp (x a : Nat) (ha : 0 < a) : x ≤ alignUp x a := by
  unfold alignUp
  have h := Nat.div_add_mod (x + a - 1) a
  have h2 := Nat.mod_lt (x + a - 1) ha
  have h3 : (x + a - 1) / a * a = a * ((x + a - 1) / a) := Nat.mul_comm _ _
  omega

theorem alignUp_pos_len (x a : Nat) (ha : 0 < a) :
    alignUp x a = x + (alignUp x a - x) := by
  have := le_alignUp x a ha
  omega

/-- The bytes a `strcpy` plus `Align(len + 1, 8)` advance leave in a
zero-initialised buffer: the string, a NUL, and zero padding. -/
def cstrPad8 (s : List Nat) : List Nat :=
  s ++ 0 :: List.replicate (alignUp (s.length + 1) 8 - (s.length + 1)) 0

theorem length_cstrPad8 (s : List Nat) :
    (cstrPad8 s).length = alignUp (s.length + 1) 8 := by
  have := le_alignUp (s.length + 1) 8 (by omega)
  simp [cstrPad8]
  omega

/-- Reading a NUL-terminated string (`filename = p;` followed by
`p += Align(filename.size() + 1, 8);`). -/
def rdCstr8 (l : List Nat) : List Nat × List Nat :=
  let s := l.takeWhile (fun b => b ≠ 0)
  (s, l.drop (alignUp (s.length + 1) 8))

theorem takeWhile_ne_zero_append (s t : List Nat) (hs : ∀ b ∈ s, b ≠ 0) :
    (s ++ 0 :: t).takeWhile (fun b => b ≠ 0) = s := by
  induction s with
  | nil => simp [List.takeWhile]
  | cons b rest ih =>
    have hb : b ≠ 0 := hs b (by simp)
    have ih' := ih (fun x hx => hs x (by simp [hx]))
    simpa [List.takeWhile_cons, hb] using ih'

theorem rdCstr8_cstrPad8 (s : List Nat) (rest : List Nat)
    (hs : ∀ b ∈ s, b ≠ 0) :
    rdCstr8 (cstrPad8 s ++ rest) = (s, rest) := by
  have hlen := length_cstrPad8 s
  have htw : (cstrPad8 s ++ rest).takeWhile (fun b => b ≠ 0) = s := by
    have : cstrPad8 s ++ rest
        = s ++ 0 :: (List.replicate (alignUp (s.length + 1) 8 - (s.length + 1)) 0 ++ rest) := by
      simp [cstrPad8]
    rw [this, takeWhile_ne_zero_append s _ hs]
  simp only [rdCstr8, htw]
  rw [List.drop_left' hlen]

/-! ## perf sample-type bits

Bit masks from the kernel's `perf_event.h` (`PERF_SAMPLE_* = 1 << k`). -/

def PERF_SAMPLE_IP : Nat := 2 ^ 0
def PERF_SAMPLE_TID : Nat := 2 ^ 1
def PERF_SAMPLE_TIME : Nat := 2 ^ 2
def PERF_SAMPLE_ADDR : Nat := 2 ^ 3
def PERF_SAMPLE_READ : Nat := 2 ^ 4
def PERF_SAMPLE_CALLCHAIN : Nat := 2 ^ 5
def PERF_SAMPLE_ID : Nat := 2 ^ 6
def PERF_SAMPLE_CPU : Nat := 2 ^ 7
def PERF_SAMPLE_PERIOD : Nat := 2 ^ 8
def PERF_SAMPLE_STREAM_ID : Nat := 2 ^ 9
def PERF_SAMPLE_RAW : Nat := 2 ^ 10
def PERF_SAMPLE_BRANCH_STACK : Nat := 2 ^ 11
def PERF_SAMPLE_REGS_USER : Nat := 2 ^ 12
def PERF_SAMPLE_STACK_USER : Nat := 2 ^ 13
def PERF_SAMPLE_IDENTIFIER : Nat := 2 ^ 16

/-- `sample_type & PERF_SAMPLE_FOO` as a Bool. -/
def hasBits (st mask : Nat) : Bool := st &&& mask != 0

theorem hasBits_two_pow (st k : Nat) : hasBits st (2 ^ k) = st.testBit k := by
  unfold hasBits
  rw [Nat.and_two_pow]
  cases h : st.testBit k <;> simp [Nat.pos_iff_ne_zero, Nat.pow_eq_zero]

/-- The subset of `perf_event_attr` consulted by the record codec. -/
structure EventAttr where
  sample_type : Nat
  sample_id_all : Bool
  sample_regs_user : Nat
  deriving DecidableEq

/-! ## SampleId

`SampleId` (record.h / record.cpp): optional trailer of non-sample records,
governed by `attr.sample_id_all` and `attr.sample_type`.  The C++ default
constructor memsets the struct to zero. -/

structure SampleId where
  sample_id_all : Bool := false
  sample_type : Nat := 0
  tid_pid : Nat := 0
  tid_tid : Nat := 0
  time : Nat := 0
  id : Nat := 0
  stream_id : Nat := 0
  cpu : Nat := 0
  res : Nat := 0
  deriving DecidableEq

/-- `SampleId::WriteToBinaryFormat` (record.cpp:124-142).  Note there is no
case for `PERF_SAMPLE_IDENTIFIER`. -/
def SampleId.writeToBinaryFormat (s : SampleId) : List Nat :=
  if s.sample_id_all then
    (if hasBits s.sample_type PERF_SAMPLE_TID then
        natToBytes 4 s.tid_pid ++ natToBytes 4 s.tid_tid else []) ++
    (if hasBits s.sample_type PERF_SAMPLE_TIME then natToBytes 8 s.time else []) ++
    (if hasBits s.sample_type PERF_SAMPLE_ID then natToBytes 8 s.id else []) ++
    (if hasBits s.sample_type PERF_SAMPLE_STREAM_ID then natToBytes 8 s.stream_id else []) ++
    (if hasBits s.sample_type PERF_SAMPLE_CPU then
        natToBytes 4 s.cpu ++ natToBytes 4 s.res else [])
  else []

/-- `SampleId::Size` (record.cpp:167-190).  Each present field contributes 8
bytes; `PERF_SAMPLE_IDENTIFIER` is counted. -/
def SampleId.size (s : SampleId) : Nat :=
  if s.sample_id_all then
    (if hasBits s.sample_type PERF_SAMPLE_TID then 8 else 0) +
    (if hasBits s.sample_type PERF_SAMPLE_TIME then 8 else 0) +
    (if hasBits s.sample_type PERF_SAMPLE_ID then 8 else 0) +
    (if hasBits s.sample_type PERF_SAMPLE_STREAM_ID then 8 else 0) +
    (if hasBits s.sample_type PERF_SAMPLE_CPU then 8 else 0) +
    (if hasBits s.sample_type PERF_SAMPLE_IDENTIFIER then 8 else 0)
  else 0

/-- `SampleId::ReadFromBinaryFormat` (record.cpp:94-122).  Fields whose bits
are unset keep the memset-zero defaults; `PERF_SAMPLE_IDENTIFIER` is read
last, into `id_data`. -/
def SampleId.readFromBinaryFormat (attr : EventAttr) (l : List Nat) : SampleId × List Nat :=
  let st := attr.sample_type
  let s0 : SampleId := { sample_id_all := attr.sample_id_all, sample_type := st }
  if attr.sample_id_all then
    let p1 :=
      if hasBits st PERF_SAMPLE_TID then
        let (pid, la) := rdN 4 l
        let (tid, lb) := rdN 4 la
        ({ s0 with tid_pid := pid, tid_tid := tid }, lb)
      else (s0, l)
    let p2 :=
      if hasBits st PERF_SAMPLE_TIME then
        let (t, la) := rdN 8 p1.2
        ({ p1.1 with time := t }, la)
      else p1
    let p3 :=
      if hasBits st PERF_SAMPLE_ID then
        let (v, la) := rdN 8 p2.2
        ({ p2.1 with id := v }, la)
      else p2
    let p4 :=
      if hasBits st PERF_SAMPLE_STREAM_ID then
        let (v, la) := rdN 8 p3.2
        ({ p3.1 with stream_id := v }, la)
      else p3
    let p5 :=
      if hasBits st PERF_SAMPLE_CPU then
        let (c, la) := rdN 4 p4.2
        let (r, lb) := rdN 4 la
        ({ p4.1 with cpu := c, res := r }, lb)
      else p4
    if hasBits st PERF_SAMPLE_IDENTIFIER then
      let (v, la) := rdN 8 p5.2
      ({ p5.1 with id := v }, la)
    else p5
  else (s0, l)

/-- Well-formedness of an in-memory `SampleId` under its governing attr:
the mask fields mirror the attr, the machine-integer fields are in range,
and fields the wire format does not carry are at their memset defaults. -/
def SampleId.wf (attr : EventAttr) (s : SampleId) : Prop :=
  s.sample_id_all = attr.sample_id_all ∧
  s.sample_type = attr.sample_type ∧
  s.tid_pid < 2 ^ 32 ∧ s.tid_tid < 2 ^ 32 ∧ s.time < 2 ^ 64 ∧ s.id < 2 ^ 64 ∧
  s.stream_id < 2 ^ 64 ∧ s.cpu < 2 ^ 32 ∧ s.res < 2 ^ 32 ∧
  (¬ (s.sample_id_all = true ∧ hasBits s.sample_type PERF_SAMPLE_TID = true) →
    s.tid_pid = 0 ∧ s.tid_tid = 0) ∧
  (¬ (s.sample_id_all = true ∧ hasBits s.sample_type PERF_SAMPLE_TIME = true) → s.time = 0) ∧
  (¬ (s.sample_id_all = true ∧ (hasBits s.sample_type PERF_SAMPLE_ID = true ∨
      hasBits s.sample_type PERF_SAMPLE_IDENTIFIER = true)) → s.id = 0) ∧
  (¬ (s.sample_id_all = true ∧ hasBits s.sample_type PERF_SAMPLE_STREAM_ID = true) →
    s.stream_id = 0) ∧
  (¬ (s.sample_id_all = true ∧ hasBits s.sample_type PERF_SAMPLE_CPU = true) →
    s.cpu = 0 ∧ s.res = 0)

instance (attr : EventAttr) (s : SampleId) : Decidable (s.wf attr) := by
  unfold SampleId.wf; infer_instance

/-- Reading back a written trailer recovers the `SampleId` exactly — as long
as `PERF_SAMPLE_IDENTIFIER` is not in the mask while `sample_id_all` is set
(in that case the reader consumes 8 bytes the writer never produced). -/
theorem SampleId.read_write (attr : EventAttr) (s : SampleId) (rest : List Nat)
    (hwf : s.wf attr)
    (hident : attr.sample_id_all = true → hasBits attr.sample_type PERF_SAMPLE_IDENTIFIER = false) :
    SampleId.readFromBinaryFormat attr (s.writeToBinaryFormat ++ rest) = (s, rest) := by
  obtain ⟨h1, h2, b1, b2, b3, b4, b5, b6, b7, z1, z2, z3, z4, z5⟩ := hwf
  cases hall : attr.sample_id_all with
  | false =>
    rw [hall] at h1
    obtain ⟨e1, e2⟩ := z1 (by simp [h1])
    have e3 := z2 (by simp [h1])
    have e4 := z3 (by simp [h1])
    have e5 := z4 (by simp [h1])
    obtain ⟨e6, e7⟩ := z5 (by simp [h1])
    simp only [SampleId.writeToBinaryFormat, SampleId.readFromBinaryFormat, h1, hall,
      if_false, Bool.false_eq_true, List.nil_append]
    cases s
    simp_all
  | true =>
    rw [hall] at h1
    have hid := hident hall
    by_cases hTID : hasBits attr.sample_type PERF_SAMPLE_TID = true <;>
    by_cases hTIME : hasBits attr.sample_type PERF_SAMPLE_TIME = true <;>
    by_cases hID : hasBits attr.sample_type PERF_SAMPLE_ID = true <;>
    by_cases hSID : hasBits attr.sample_type PERF_SAMPLE_STREAM_ID = true <;>
    by_cases hCPU : hasBits attr.sample_type PERF_SAMPLE_CPU = true <;>
    · simp only [Bool.not_eq_true] at *
      cases s
      simp_all [SampleId.writeToBinaryFormat, SampleId.readFromBinaryFormat,
        List.append_assoc, rdN_natToBytes_append, Nat.mod_eq_of_lt]

/-- C8: with `sample_id_all` set, `WriteToBinaryFormat` produces `Size() - 8`
bytes when `PERF_SAMPLE_IDENTIFIER` is in the mask (the field is counted by
`Size()` and consumed by `ReadFromBinaryFormat` but never written), and
exactly `Size()` bytes for every mask without `PERF_SAMPLE_IDENTIFIER`;
`ReadFromBinaryFormat` always consumes `Size()` bytes. -/
theorem sampleId_identifier_write_size_mismatch (attr : EventAttr) (s : SampleId)
    (l : List Nat)
    (hall : s.sample_id_all = true) (hattr : attr.sample_id_all = true)
    (hst : s.sample_type = attr.sample_type)
    (_hlen : s.size ≤ l.length) :
    (hasBits s.sample_type PERF_SAMPLE_IDENTIFIER = true →
      s.writeToBinaryFormat.length = s.size - 8) ∧
    (hasBits s.sample_type PERF_SAMPLE_IDENTIFIER = false →
      s.writeToBinaryFormat.length = s.size) ∧
    (SampleId.readFromBinaryFormat attr l).2.length = l.length - s.size := by
  obtain ⟨sa, st⟩ := attr
  simp only at hst hattr
  subst hattr
  rw [← hst] at *
  by_cases hTID : hasBits s.sample_type PERF_SAMPLE_TID = true <;>
  by_cases hTIME : hasBits s.sample_type PERF_SAMPLE_TIME = true <;>
  by_cases hID : hasBits s.sample_type PERF_SAMPLE_ID = true <;>
  by_cases hSID : hasBits s.sample_type PERF_SAMPLE_STREAM_ID = true <;>
  by_cases hCPU : hasBits s.sample_type PERF_SAMPLE_CPU = true <;>
  by_cases hIDENT : hasBits s.sample_type PERF_SAMPLE_IDENTIFIER = true <;>
  · simp only [Bool.not_eq_true] at *
    simp_all [SampleId.writeToBinaryFormat, SampleId.readFromBinaryFormat, SampleId.size,
      rdN, List.length_append, length_natToBytes]
    try omega

/-- Witness for `sampleId_identifier_write_size_mismatch` at the mask
`PERF_SAMPLE_TID | PERF_SAMPLE_IDENTIFIER`: 8 bytes written, size 16,
16 bytes consumed. -/
theorem sampleId_identifier_write_size_mismatch_witness :
    let attrW : EventAttr := { sample_type := 65538, sample_id_all := true, sample_regs_user := 0 }
    let sW : SampleId := { sample_id_all := true, sample_type := 65538, tid_pid := 1, tid_tid := 2 }
    let lW : List Nat := List.replicate 20 7
    (hasBits sW.sample_type PERF_SAMPLE_IDENTIFIER = true →
      sW.writeToBinaryFormat.length = sW.size - 8) ∧
    (hasBits sW.sample_type PERF_SAMPLE_IDENTIFIER = false →
      sW.writeToBinaryFormat.length = sW.size) ∧
    (SampleId.readFromBinaryFormat attrW lW).2.length = lW.length - sW.size :=
  sampleId_identifier_write_size_mismatch
    { sample_type := 65538, sample_id_all := true, sample_regs_user := 0 }
    { sample_id_all := true, sample_type := 65538, tid_pid := 1, tid_tid := 2 }
    (List.replicate 20 7) (by decide) (by decide) (by decide) (by decide)

/-! ## Record headers and record type constants

`perf_event_header` is `{u32 type; u16 misc; u16 size}`.  The numeric type
constants come from the kernel's `perf_event.h`; the `SIMPLE_PERF_*` types
are simpleperf-private (declared in `record.h`, which only record.cpp sees;
their exact numeric values play no role beyond being distinct and ≥ 32768). -/

def PERF_RECORD_MMAP : Nat := 1
def PERF_RECORD_LOST : Nat := 2
def PERF_RECORD_COMM : Nat := 3
def PERF_RECORD_EXIT : Nat := 4
def PERF_RECORD_FORK : Nat := 7
def PERF_RECORD_SAMPLE : Nat := 9
def PERF_RECORD_MMAP2 : Nat := 10
def PERF_RECORD_TRACING_DATA : Nat := 66
def PERF_RECORD_BUILD_ID : Nat := 67
def SIMPLE_PERF_RECORD_KERNEL_SYMBOL : Nat := 32769
def SIMPLE_PERF_RECORD_DSO : Nat := 32770
def SIMPLE_PERF_RECORD_SYMBOL : Nat := 32771

structure RecordHeader where
  type : Nat
  misc : Nat
  size : Nat
  deriving DecidableEq

/-- `RecordHeader::MoveToBinaryFormat`. -/
def RecordHeader.toBytes (h : RecordHeader) : List Nat :=
  natToBytes 4 h.type ++ natToBytes 2 h.misc ++ natToBytes 2 h.size

/-- `RecordHeader(const char* p)`. -/
def readHeader (l : List Nat) : RecordHeader × List Nat :=
  let (t, l1) := rdN 4 l
  let (m, l2) := rdN 2 l1
  let (sz, l3) := rdN 2 l2
  ({ type := t, misc := m, size := sz }, l3)

/-- `Record::header_size()` = `sizeof(perf_event_header)` = 8. -/
def headerSize : Nat := 8

theorem readHeader_toBytes (h : RecordHeader) (rest : List Nat) :
    readHeader (h.toBytes ++ rest)
      = ({ type := h.type % 256 ^ 4, misc := h.misc % 256 ^ 2, size := h.size % 256 ^ 2 },
         rest) := by
  simp [readHeader, RecordHeader.toBytes, List.append_assoc]

/-! ## Record payloads

Payload structs mirror `record.h` (the perf ABI layouts used by record.cpp's
`MoveFromBinaryFormat(data, p)` reads). -/

structure MmapRecordData where
  pid : Nat
  tid : Nat
  addr : Nat
  len : Nat
  pgoff : Nat
  deriving DecidableEq

structure Mmap2RecordData where
  pid : Nat
  tid : Nat
  addr : Nat
  len : Nat
  pgoff : Nat
  maj : Nat
  min : Nat
  ino : Nat
  ino_generation : Nat
  prot : Nat
  flags : Nat
  deriving DecidableEq

structure CommRecordData where
  pid : Nat
  tid : Nat
  deriving DecidableEq

structure ExitOrForkRecordData where
  pid : Nat
  ppid : Nat
  tid : Nat
  ptid : Nat
  time : Nat
  deriving DecidableEq

/-- The in-memory fields of `SampleRecord`; unset selector bits leave the
corresponding fields at their defaults. -/
structure SampleRecordData where
  sample_type : Nat
  id : Nat := 0
  ip : Nat := 0
  pid : Nat := 0
  tid : Nat := 0
  time : Nat := 0
  addr : Nat := 0
  stream_id : Nat := 0
  cpu : Nat := 0
  res : Nat := 0
  period : Nat := 0
  ips : List Nat := []
  raw : List Nat := []
  branch_stack : List (Nat × Nat × Nat) := []
  regs_abi : Nat := 0
  reg_mask : Nat := 0
  regs : List Nat := []
  stack : List Nat := []
  dyn_size : Nat := 0
  deriving DecidableEq

/-- The record sum type: one constructor per `Record` subclass in record.cpp.
`exitOrFork` covers both `ExitRecord` and `ForkRecord` (distinguished by
`header.type`, as in the C++ class hierarchy). -/
inductive PerfRecord where
  | mmap (header : RecordHeader) (data : MmapRecordData) (filename : List Nat)
      (sample_id : SampleId)
  | mmap2 (header : RecordHeader) (data : Mmap2RecordData) (filename : List Nat)
      (sample_id : SampleId)
  | comm (header : RecordHeader) (data : CommRecordData) (comm : List Nat)
      (sample_id : SampleId)
  | exitOrFork (header : RecordHeader) (data : ExitOrForkRecordData) (sample_id : SampleId)
  | lost (header : RecordHeader) (id : Nat) (lostCount : Nat) (sample_id : SampleId)
  | sample (header : RecordHeader) (data : SampleRecordData)
  | buildId (header : RecordHeader) (pid : Nat) (build_id : List Nat) (filename : List Nat)
  | kernelSymbol (header : RecordHeader) (kallsyms : List Nat)
  | dso (header : RecordHeader) (dso_type : Nat) (dso_id : Nat) (dso_name : List Nat)
  | symbol (header : RecordHeader) (addr : Nat) (len : Nat) (dso_id : Nat) (name : List Nat)
  | tracingData (header : RecordHeader) (data : List Nat)
  | unknown (header : RecordHeader) (data : List Nat)
  deriving DecidableEq

def PerfRecord.header : PerfRecord → RecordHeader
  | .mmap h .. => h
  | .mmap2 h .. => h
  | .comm h .. => h
  | .exitOrFork h .. => h
  | .lost h .. => h
  | .sample h .. => h
  | .buildId h .. => h
  | .kernelSymbol h .. => h
  | .dso h .. => h
  | .symbol h .. => h
  | .tracingData h .. => h
  | .unknown h .. => h

/-- `Record::size()` returns the header's size field. -/
def PerfRecord.size (r : PerfRecord) : Nat := r.header.size

def PerfRecord.isSample : PerfRecord → Bool
  | .sample .. => true
  | _ => false

/-! ## Encoding (the `BinaryFormat` methods)

Every non-sample `BinaryFormat` allocates `std::vector<char> buf(size())`
(zero-initialised) and writes its fields from the front, so the result is
the written content padded with zeros up to `size()`.
`SampleRecord::BinaryFormat` instead resizes the buffer to the bytes
actually written (record.cpp:540-543). -/

def padTo (n : Nat) (l : List Nat) : List Nat := l ++ List.replicate (n - l.length) 0

theorem padTo_length (n : Nat) (l : List Nat) : (padTo n l).length = max n l.length := by
  simp [padTo]
  omega

theorem padTo_eq_self (n : Nat) (l : List Nat) (h : l.length = n) : padTo n l = l := by
  simp [padTo, h]

/-- Write a list of u64 values (`MoveToBinaryFormat(data_p, n, p)`). -/
def wrU64s : List Nat → List Nat
  | [] => []
  | v :: vs => natToBytes 8 v ++ wrU64s vs

/-- Write `PerfSampleBranchStackType` entries `{u64 from, to, flags}`. -/
def wrBranch : List (Nat × Nat × Nat) → List Nat
  | [] => []
  | (f, t, fl) :: bs => natToBytes 8 f ++ natToBytes 8 t ++ natToBytes 8 fl ++ wrBranch bs

/-- `SampleRecord::BinaryFormat` payload (after the header), following
record.cpp:482-538 field for field. -/
def sampleContent (s : SampleRecordData) : List Nat :=
  (if hasBits s.sample_type PERF_SAMPLE_IDENTIFIER then natToBytes 8 s.id else []) ++
  (if hasBits s.sample_type PERF_SAMPLE_IP then natToBytes 8 s.ip else []) ++
  (if hasBits s.sample_type PERF_SAMPLE_TID then
      natToBytes 4 s.pid ++ natToBytes 4 s.tid else []) ++
  (if hasBits s.sample_type PERF_SAMPLE_TIME then natToBytes 8 s.time else []) ++
  (if hasBits s.sample_type PERF_SAMPLE_ADDR then natToBytes 8 s.addr else []) ++
  (if hasBits s.sample_type PERF_SAMPLE_ID then natToBytes 8 s.id else []) ++
  (if hasBits s.sample_type PERF_SAMPLE_STREAM_ID then natToBytes 8 s.stream_id else []) ++
  (if hasBits s.sample_type PERF_SAMPLE_CPU then
      natToBytes 4 s.cpu ++ natToBytes 4 s.res else []) ++
  (if hasBits s.sample_type PERF_SAMPLE_PERIOD then natToBytes 8 s.period else []) ++
  (if hasBits s.sample_type PERF_SAMPLE_CALLCHAIN then
      natToBytes 8 s.ips.length ++ wrU64s s.ips else []) ++
  (if hasBits s.sample_type PERF_SAMPLE_RAW then
      natToBytes 4 s.raw.length ++ s.raw else []) ++
  (if hasBits s.sample_type PERF_SAMPLE_BRANCH_STACK then
      natToBytes 8 s.branch_stack.length ++ wrBranch s.branch_stack else []) ++
  (if hasBits s.sample_type PERF_SAMPLE_REGS_USER then
      natToBytes 8 s.regs_abi ++ (if s.regs_abi ≠ 0 then wrU64s s.regs else []) else []) ++
  (if hasBits s.sample_type PERF_SAMPLE_STACK_USER then
      natToBytes 8 s.stack.length ++
        (if s.stack.length ≠ 0 then s.stack ++ natToBytes 8 s.dyn_size else [])
    else [])

/-- The bytes each `BinaryFormat` writes (header included), before the
zero padding the `buf(size())` allocation provides. -/
def recordContent : PerfRecord → List Nat
  | .mmap h d fname sid =>
      h.toBytes ++ natToBytes 4 d.pid ++ natToBytes 4 d.tid ++ natToBytes 8 d.addr ++
        natToBytes 8 d.len ++ natToBytes 8 d.pgoff ++ cstrPad8 fname ++
        sid.writeToBinaryFormat
  | .mmap2 h d fname sid =>
      h.toBytes ++ natToBytes 4 d.pid ++ natToBytes 4 d.tid ++ natToBytes 8 d.addr ++
        natToBytes 8 d.len ++ natToBytes 8 d.pgoff ++ natToBytes 4 d.maj ++
        natToBytes 4 d.min ++ natToBytes 8 d.ino ++ natToBytes 8 d.ino_generation ++
        natToBytes 4 d.prot ++ natToBytes 4 d.flags ++ cstrPad8 fname ++
        sid.writeToBinaryFormat
  | .comm h d c sid =>
      h.toBytes ++ natToBytes 4 d.pid ++ natToBytes 4 d.tid ++ cstrPad8 c ++
        sid.writeToBinaryFormat
  | .exitOrFork h d sid =>
      h.toBytes ++ natToBytes 4 d.pid ++ natToBytes 4 d.ppid ++ natToBytes 4 d.tid ++
        natToBytes 4 d.ptid ++ natToBytes 8 d.time ++ sid.writeToBinaryFormat
  | .lost h id lostCount sid =>
      h.toBytes ++ natToBytes 8 id ++ natToBytes 8 lostCount ++ sid.writeToBinaryFormat
  | .sample h s => h.toBytes ++ sampleContent s
  | .buildId h pid bid fname =>
      h.toBytes ++ natToBytes 4 pid ++ padTo 24 bid ++ fname ++ [0]
  | .kernelSymbol h kallsyms =>
      h.toBytes ++ natToBytes 4 kallsyms.length ++ kallsyms
  | .dso h dso_type dso_id dso_name =>
      h.toBytes ++ natToBytes 8 dso_type ++ natToBytes 8 dso_id ++ dso_name ++ [0]
  | .symbol h addr len dso_id name =>
      h.toBytes ++ natToBytes 8 addr ++ natToBytes 8 len ++ natToBytes 8 dso_id ++
        name ++ [0]
  | .tracingData h data => h.toBytes ++ natToBytes 4 data.length ++ data
  | .unknown h data => h.toBytes ++ data

/-- `Record::BinaryFormat()`: zero-padded to `size()` for every subclass
except `SampleRecord`, which resizes to the bytes written. -/
def encodeRecord (r : PerfRecord) : List Nat :=
  match r with
  | .sample .. => recordContent r
  | _ => padTo r.size (recordContent r)

/-! ## Decoding (the record constructors from `const char* p`)

Each constructor gets the record's own byte slice (`[p, p + size())`, cf.
`end` in the C++ constructors) and reads fields from the front.  Fields whose
selector bit is unset keep their defaults. -/

/-- `if (sample_type & bit) { MoveFromBinaryFormat(field, p); }` for one
`k`-byte field; `deflt` is the field's prior value when the bit is unset. -/
def optRd (c : Bool) (k : Nat) (deflt : Nat) (l : List Nat) : Nat × List Nat :=
  if c then rdN k l else (deflt, l)

/-- The same for a pair of consecutive u32 fields (the tid and cpu groups). -/
def optRd2 (c : Bool) (l : List Nat) : (Nat × Nat) × List Nat :=
  if c then
    let (a, l1) := rdN 4 l
    let (b, l2) := rdN 4 l1
    ((a, b), l2)
  else ((0, 0), l)

/-- Read `n` consecutive u64 values (`MoveFromBinaryFormat(data, n, p)`). -/
def rdU64s : Nat → List Nat → List Nat × List Nat
  | 0, l => ([], l)
  | n + 1, l =>
    let (v, l1) := rdN 8 l
    let (vs, l2) := rdU64s n l1
    (v :: vs, l2)

/-- Read `n` branch-stack entries `{u64 from, to, flags}`. -/
def rdBranch : Nat → List Nat → List (Nat × Nat × Nat) × List Nat
  | 0, l => ([], l)
  | n + 1, l =>
    let (f, l1) := rdN 8 l
    let (t, l2) := rdN 8 l1
    let (fl, l3) := rdN 8 l2
    let (bs, l4) := rdBranch n l3
    ((f, t, fl) :: bs, l4)

/-- The bit-counting loop of record.cpp:450-455: the number of set bits in
the low 64 bits of the register mask. -/
def bitCount64 (mask : Nat) : Nat :=
  ((List.range 64).map fun i => mask / 2 ^ i % 2).sum

/-- `MmapRecord::MmapRecord(const perf_event_attr&, const char*)`. -/
def mmapOfBytes (attr : EventAttr) (b : List Nat) : PerfRecord :=
  let (h, l1) := readHeader b
  let (pid, l2) := rdN 4 l1
  let (tid, l3) := rdN 4 l2
  let (addr, l4) := rdN 8 l3
  let (len, l5) := rdN 8 l4
  let (pgoff, l6) := rdN 8 l5
  let (fname, l7) := rdCstr8 l6
  .mmap h { pid := pid, tid := tid, addr := addr, len := len, pgoff := pgoff } fname
    (SampleId.readFromBinaryFormat attr l7).1

/-- `Mmap2Record::Mmap2Record`. -/
def mmap2OfBytes (attr : EventAttr) (b : List Nat) : PerfRecord :=
  let (h, l1) := readHeader b
  let (pid, l2) := rdN 4 l1
  let (tid, l3) := rdN 4 l2
  let (addr, l4) := rdN 8 l3
  let (len, l5) := rdN 8 l4
  let (pgoff, l6) := rdN 8 l5
  let (maj, l7) := rdN 4 l6
  let (mn, l8) := rdN 4 l7
  let (ino, l9) := rdN 8 l8
  let (ino_gen, l10) := rdN 8 l9
  let (prot, l11) := rdN 4 l10
  let (flags, l12) := rdN 4 l11
  let (fname, l13) := rdCstr8 l12
  .mmap2 h { pid := pid, tid := tid, addr := addr, len := len, pgoff := pgoff, maj := maj,
             min := mn, ino := ino, ino_generation := ino_gen, prot := prot, flags := flags }
    fname (SampleId.readFromBinaryFormat attr l13).1

/-- `CommRecord::CommRecord`. -/
def commOfBytes (attr : EventAttr) (b : List Nat) : PerfRecord :=
  let (h, l1) := readHeader b
  let (pid, l2) := rdN 4 l1
  let (tid, l3) := rdN 4 l2
  let (c, l4) := rdCstr8 l3
  .comm h { pid := pid, tid := tid } c (SampleId.readFromBinaryFormat attr l4).1

/-- `ExitOrForkRecord::ExitOrForkRecord`. -/
def exitOrForkOfBytes (attr : EventAttr) (b : List Nat) : PerfRecord :=
  let (h, l1) := readHeader b
  let (pid, l2) := rdN 4 l1
  let (ppid, l3) := rdN 4 l2
  let (tid, l4) := rdN 4 l3
  let (ptid, l5) := rdN 4 l4
  let (time, l6) := rdN 8 l5
  .exitOrFork h { pid := pid, ppid := ppid, tid := tid, ptid := ptid, time := time }
    (SampleId.readFromBinaryFormat attr l6).1

/-- `LostRecord::LostRecord`. -/
def lostOfBytes (attr : EventAttr) (b : List Nat) : PerfRecord :=
  let (h, l1) := readHeader b
  let (id, l2) := rdN 8 l1
  let (lostCount, l3) := rdN 8 l2
  .lost h id lostCount (SampleId.readFromBinaryFormat attr l3).1

/-- `SampleRecord::SampleRecord` (record.cpp:393-476).  Each `p*` is the
(value, remaining-buffer) pair after one `if (sample_type & X)` block; an
unread field keeps its default. -/
def sampleOfBytes (attr : EventAttr) (b : List Nat) : PerfRecord :=
  let hp := readHeader b
  let st := attr.sample_type
  let p1 := optRd (hasBits st PERF_SAMPLE_IDENTIFIER) 8 0 hp.2
  let p2 := optRd (hasBits st PERF_SAMPLE_IP) 8 0 p1.2
  let p3 := optRd2 (hasBits st PERF_SAMPLE_TID) p2.2
  let p4 := optRd (hasBits st PERF_SAMPLE_TIME) 8 0 p3.2
  let p5 := optRd (hasBits st PERF_SAMPLE_ADDR) 8 0 p4.2
  let p6 := optRd (hasBits st PERF_SAMPLE_ID) 8 p1.1 p5.2
  let p7 := optRd (hasBits st PERF_SAMPLE_STREAM_ID) 8 0 p6.2
  let p8 := optRd2 (hasBits st PERF_SAMPLE_CPU) p7.2
  let p9 := optRd (hasBits st PERF_SAMPLE_PERIOD) 8 0 p8.2
  let p10 :=
    if hasBits st PERF_SAMPLE_CALLCHAIN then
      rdU64s (rdN 8 p9.2).1 (rdN 8 p9.2).2
    else ([], p9.2)
  let p11 :=
    if hasBits st PERF_SAMPLE_RAW then
      ((rdN 4 p10.2).2.take (rdN 4 p10.2).1, (rdN 4 p10.2).2.drop (rdN 4 p10.2).1)
    else ([], p10.2)
  let p12 :=
    if hasBits st PERF_SAMPLE_BRANCH_STACK then
      rdBranch (rdN 8 p11.2).1 (rdN 8 p11.2).2
    else ([], p11.2)
  let abiP := rdN 8 p12.2
  let p13 : Nat × Nat × List Nat × List Nat :=
    if hasBits st PERF_SAMPLE_REGS_USER then
      if abiP.1 = 0 then (abiP.1, 0, [], abiP.2)
      else (abiP.1, attr.sample_regs_user,
        (rdU64s (bitCount64 attr.sample_regs_user) abiP.2).1,
        (rdU64s (bitCount64 attr.sample_regs_user) abiP.2).2)
    else (0, 0, [], p12.2)
  let szP := rdN 8 ((p13.2).2).2
  let p14 : List Nat × Nat :=
    if hasBits st PERF_SAMPLE_STACK_USER then
      if szP.1 = 0 then ([], 0)
      else (szP.2.take szP.1, (rdN 8 (szP.2.drop szP.1)).1)
    else ([], 0)
  PerfRecord.sample hp.1
    { sample_type := st, id := p6.1, ip := p2.1, pid := (p3.1).1,
      tid := (p3.1).2, time := p4.1, addr := p5.1, stream_id := p7.1, cpu := (p8.1).1,
      res := (p8.1).2, period := p9.1, ips := p10.1, raw := p11.1, branch_stack := p12.1,
      regs_abi := p13.1, reg_mask := (p13.2).1, regs := ((p13.2).2).1, stack := p14.1,
      dyn_size := p14.2 }

/-- `BuildIdRecord::BuildIdRecord` (pid, 20-byte build id aligned to 24,
filename). -/
def buildIdOfBytes (b : List Nat) : PerfRecord :=
  let (h, l1) := readHeader b
  let (pid, l2) := rdN 4 l1
  let bid := l2.take 20
  let l3 := l2.drop 24
  let fname := l3.takeWhile (fun x => x ≠ 0)
  .buildId h pid bid fname

/-- `KernelSymbolRecord::KernelSymbolRecord`. -/
def kernelSymbolOfBytes (b : List Nat) : PerfRecord :=
  let (h, l1) := readHeader b
  let (sz, l2) := rdN 4 l1
  .kernelSymbol h (l2.take sz)

/-- `DsoRecord::DsoRecord`. -/
def dsoOfBytes (b : List Nat) : PerfRecord :=
  let (h, l1) := readHeader b
  let (dso_type, l2) := rdN 8 l1
  let (dso_id, l3) := rdN 8 l2
  .dso h dso_type dso_id (l3.takeWhile (fun x => x ≠ 0))

/-- `SymbolRecord::SymbolRecord`. -/
def symbolOfBytes (b : List Nat) : PerfRecord :=
  let (h, l1) := readHeader b
  let (addr, l2) := rdN 8 l1
  let (len, l3) := rdN 8 l2
  let (dso_id, l4) := rdN 8 l3
  .symbol h addr len dso_id (l4.takeWhile (fun x => x ≠ 0))

/-- `TracingDataRecord::TracingDataRecord`. -/
def tracingDataOfBytes (b : List Nat) : PerfRecord :=
  let (h, l1) := readHeader b
  let (sz, l2) := rdN 4 l1
  .tracingData h (l2.take sz)

/-- `UnknownRecord::UnknownRecord`: keeps the bytes between `header_size()`
and `size()` verbatim. -/
def unknownOfBytes (b : List Nat) : PerfRecord :=
  let (h, _) := readHeader b
  .unknown h (b.drop headerSize)

/-- `ReadRecordFromBuffer` (record.cpp:844-872), restricted to the record's
own `header.size` bytes.  `PERF_RECORD_BUILD_ID` is not in the C++ switch
(build-id records live in the file's feature section and are materialized by
the `BuildIdRecord(p)` constructor, see `decodeRecord`), so such a type falls
through to `UnknownRecord`. -/
def readRecordFromBuffer (attr : EventAttr) (l : List Nat) : PerfRecord :=
  let hdr := (readHeader l).1
  let b := l.take hdr.size
  if hdr.type = PERF_RECORD_MMAP then mmapOfBytes attr b
  else if hdr.type = PERF_RECORD_MMAP2 then mmap2OfBytes attr b
  else if hdr.type = PERF_RECORD_COMM then commOfBytes attr b
  else if hdr.type = PERF_RECORD_EXIT then exitOrForkOfBytes attr b
  else if hdr.type = PERF_RECORD_FORK then exitOrForkOfBytes attr b
  else if hdr.type = PERF_RECORD_LOST then lostOfBytes attr b
  else if hdr.type = PERF_RECORD_SAMPLE then sampleOfBytes attr b
  else if hdr.type = PERF_RECORD_TRACING_DATA then tracingDataOfBytes b
  else if hdr.type = SIMPLE_PERF_RECORD_KERNEL_SYMBOL then kernelSymbolOfBytes b
  else if hdr.type = SIMPLE_PERF_RECORD_DSO then dsoOfBytes b
  else if hdr.type = SIMPLE_PERF_RECORD_SYMBOL then symbolOfBytes b
  else unknownOfBytes b

/-- The decoding entry point per record kind: `ReadRecordFromBuffer` for the
stream record types, and the `BuildIdRecord(p)` constructor for build-id
records (the program materializes those from the file's feature section, not
through `ReadRecordFromBuffer`). -/
def decodeRecord (attr : EventAttr) (l : List Nat) : PerfRecord :=
  if (readHeader l).1.type = PERF_RECORD_BUILD_ID then
    buildIdOfBytes (l.take (readHeader l).1.size)
  else readRecordFromBuffer attr l

/-! ## Record well-formedness

The in-memory states a record can reach through `Create`
(plus `AdjustSizeBasedOnData`) or through decoding: machine-integer fields
in range, C-string fields NUL-free, fields the wire format does not carry at
their defaults, and the header's size field consistent with the content. -/

def RecordHeader.wf (h : RecordHeader) : Prop :=
  h.type < 2 ^ 32 ∧ h.misc < 2 ^ 16 ∧ h.size < 2 ^ 16

instance (h : RecordHeader) : Decidable h.wf := by unfold RecordHeader.wf; infer_instance

/-- Bytes of an opaque blob field. -/
def bytesWf (l : List Nat) : Prop := ∀ x ∈ l, x < 256

/-- Bytes of a NUL-terminated string field. -/
def cstrWf (l : List Nat) : Prop := ∀ x ∈ l, x < 256 ∧ x ≠ 0

instance (l : List Nat) : Decidable (bytesWf l) := by unfold bytesWf; infer_instance
instance (l : List Nat) : Decidable (cstrWf l) := by unfold cstrWf; infer_instance

theorem pow_256_4 : (256 : Nat) ^ 4 = 2 ^ 32 := by norm_num
theorem pow_256_2 : (256 : Nat) ^ 2 = 2 ^ 16 := by norm_num
theorem pow_256_8 : (256 : Nat) ^ 8 = 2 ^ 64 := by norm_num

theorem readHeader_toBytes_of_wf (h : RecordHeader) (rest : List Nat) (hwf : h.wf) :
    readHeader (h.toBytes ++ rest) = (h, rest) := by
  obtain ⟨h1, h2, h3⟩ := hwf
  rw [readHeader_toBytes]
  rw [pow_256_4, pow_256_2, Nat.mod_eq_of_lt h1, Nat.mod_eq_of_lt h2, Nat.mod_eq_of_lt h3]

theorem SampleId.writeLen_of_no_ident (s : SampleId)
    (hident : s.sample_id_all = true →
      hasBits s.sample_type PERF_SAMPLE_IDENTIFIER = false) :
    s.writeToBinaryFormat.length = s.size := by
  cases hall : s.sample_id_all with
  | false => simp [SampleId.writeToBinaryFormat, SampleId.size, hall]
  | true =>
    have hid := hident hall
    by_cases hTID : hasBits s.sample_type PERF_SAMPLE_TID = true <;>
    by_cases hTIME : hasBits s.sample_type PERF_SAMPLE_TIME = true <;>
    by_cases hID : hasBits s.sample_type PERF_SAMPLE_ID = true <;>
    by_cases hSID : hasBits s.sample_type PERF_SAMPLE_STREAM_ID = true <;>
    by_cases hCPU : hasBits s.sample_type PERF_SAMPLE_CPU = true <;>
    · simp only [Bool.not_eq_true] at *
      simp_all [SampleId.writeToBinaryFormat, SampleId.size, length_natToBytes]

/-- Machine-integer ranges of `SampleRecord`'s in-memory fields. -/
def SampleRecordData.wfBounds (s : SampleRecordData) : Prop :=
  s.id < 2 ^ 64 ∧ s.ip < 2 ^ 64 ∧ s.pid < 2 ^ 32 ∧ s.tid < 2 ^ 32 ∧
  s.time < 2 ^ 64 ∧ s.addr < 2 ^ 64 ∧ s.stream_id < 2 ^ 64 ∧ s.cpu < 2 ^ 32 ∧
  s.res < 2 ^ 32 ∧ s.period < 2 ^ 64 ∧
  s.ips.length < 2 ^ 64 ∧ (∀ v ∈ s.ips, v < 2 ^ 64) ∧
  s.raw.length < 2 ^ 32 ∧ bytesWf s.raw ∧
  s.branch_stack.length < 2 ^ 64 ∧
  (∀ e ∈ s.branch_stack, e.1 < 2 ^ 64 ∧ e.2.1 < 2 ^ 64 ∧ e.2.2 < 2 ^ 64) ∧
  s.regs_abi < 2 ^ 64 ∧ (∀ v ∈ s.regs, v < 2 ^ 64) ∧
  s.stack.length < 2 ^ 64 ∧ bytesWf s.stack ∧ s.dyn_size < 2 ^ 64

/-- Fields the wire format does not carry under the given mask are at their
defaults, and the register/stack shapes agree with the attr. -/
def SampleRecordData.wfDefaults (attr : EventAttr) (s : SampleRecordData) : Prop :=
  (hasBits s.sample_type PERF_SAMPLE_REGS_USER = true →
    (s.regs_abi = 0 → s.reg_mask = 0 ∧ s.regs = []) ∧
    (s.regs_abi ≠ 0 → s.reg_mask = attr.sample_regs_user ∧
      s.regs.length = bitCount64 attr.sample_regs_user)) ∧
  (hasBits s.sample_type PERF_SAMPLE_STACK_USER = true →
    (s.stack = [] → s.dyn_size = 0)) ∧
  (¬ (hasBits s.sample_type PERF_SAMPLE_IDENTIFIER = true ∨
      hasBits s.sample_type PERF_SAMPLE_ID = true) → s.id = 0) ∧
  (hasBits s.sample_type PERF_SAMPLE_IP = false → s.ip = 0) ∧
  (hasBits s.sample_type PERF_SAMPLE_TID = false → s.pid = 0 ∧ s.tid = 0) ∧
  (hasBits s.sample_type PERF_SAMPLE_TIME = false → s.time = 0) ∧
  (hasBits s.sample_type PERF_SAMPLE_ADDR = false → s.addr = 0) ∧
  (hasBits s.sample_type PERF_SAMPLE_STREAM_ID = false → s.stream_id = 0) ∧
  (hasBits s.sample_type PERF_SAMPLE_CPU = false → s.cpu = 0 ∧ s.res = 0) ∧
  (hasBits s.sample_type PERF_SAMPLE_PERIOD = false → s.period = 0) ∧
  (hasBits s.sample_type PERF_SAMPLE_CALLCHAIN = false → s.ips = []) ∧
  (hasBits s.sample_type PERF_SAMPLE_RAW = false → s.raw = []) ∧
  (hasBits s.sample_type PERF_SAMPLE_BRANCH_STACK = false → s.branch_stack = []) ∧
  (hasBits s.sample_type PERF_SAMPLE_REGS_USER = false →
    s.regs_abi = 0 ∧ s.reg_mask = 0 ∧ s.regs = []) ∧
  (hasBits s.sample_type PERF_SAMPLE_STACK_USER = false →
    s.stack = [] ∧ s.dyn_size = 0)

instance (s : SampleRecordData) : Decidable s.wfBounds := by
  unfold SampleRecordData.wfBounds; infer_instance

instance (attr : EventAttr) (s : SampleRecordData) : Decidable (s.wfDefaults attr) := by
  unfold SampleRecordData.wfDefaults
  repeat' refine @instDecidableAnd _ _ ?_ ?_
  all_goals infer_instance

def wfRecord (attr : EventAttr) : PerfRecord → Prop
  | .mmap h d fname sid =>
      h.wf ∧ h.type = PERF_RECORD_MMAP ∧
      d.pid < 2 ^ 32 ∧ d.tid < 2 ^ 32 ∧ d.addr < 2 ^ 64 ∧ d.len < 2 ^ 64 ∧
      d.pgoff < 2 ^ 64 ∧ cstrWf fname ∧ sid.wf attr ∧
      h.size = headerSize + 32 + alignUp (fname.length + 1) 8 + sid.size
  | .mmap2 h d fname sid =>
      h.wf ∧ h.type = PERF_RECORD_MMAP2 ∧
      d.pid < 2 ^ 32 ∧ d.tid < 2 ^ 32 ∧ d.addr < 2 ^ 64 ∧ d.len < 2 ^ 64 ∧
      d.pgoff < 2 ^ 64 ∧ d.maj < 2 ^ 32 ∧ d.min < 2 ^ 32 ∧ d.ino < 2 ^ 64 ∧
      d.ino_generation < 2 ^ 64 ∧ d.prot < 2 ^ 32 ∧ d.flags < 2 ^ 32 ∧
      cstrWf fname ∧ sid.wf attr ∧
      h.size = headerSize + 64 + alignUp (fname.length + 1) 8 + sid.size
  | .comm h d c sid =>
      h.wf ∧ h.type = PERF_RECORD_COMM ∧
      d.pid < 2 ^ 32 ∧ d.tid < 2 ^ 32 ∧ cstrWf c ∧ sid.wf attr ∧
      h.size = headerSize + 8 + alignUp (c.length + 1) 8 + sid.size
  | .exitOrFork h d sid =>
      h.wf ∧ (h.type = PERF_RECORD_EXIT ∨ h.type = PERF_RECORD_FORK) ∧
      d.pid < 2 ^ 32 ∧ d.ppid < 2 ^ 32 ∧ d.tid < 2 ^ 32 ∧ d.ptid < 2 ^ 32 ∧
      d.time < 2 ^ 64 ∧ sid.wf attr ∧
      h.size = headerSize + 24 + sid.size
  | .lost h id lostCount sid =>
      h.wf ∧ h.type = PERF_RECORD_LOST ∧
      id < 2 ^ 64 ∧ lostCount < 2 ^ 64 ∧ sid.wf attr ∧
      h.size = headerSize + 16 + sid.size
  | .sample h s =>
      h.wf ∧ h.type = PERF_RECORD_SAMPLE ∧ s.sample_type = attr.sample_type ∧
      s.wfBounds ∧ s.wfDefaults attr ∧
      h.size = headerSize + (sampleContent s).length
  | .buildId h pid bid fname =>
      h.wf ∧ h.type = PERF_RECORD_BUILD_ID ∧ pid < 2 ^ 32 ∧
      bid.length = 20 ∧ bytesWf bid ∧ cstrWf fname ∧
      h.size = headerSize + 4 + 24 + alignUp (fname.length + 1) 64
  | .kernelSymbol h kallsyms =>
      h.wf ∧ h.type = SIMPLE_PERF_RECORD_KERNEL_SYMBOL ∧
      kallsyms.length < 2 ^ 32 ∧ bytesWf kallsyms ∧
      h.size = headerSize + 4 + alignUp kallsyms.length 8
  | .dso h dso_type dso_id dso_name =>
      h.wf ∧ h.type = SIMPLE_PERF_RECORD_DSO ∧
      dso_type < 2 ^ 64 ∧ dso_id < 2 ^ 64 ∧ cstrWf dso_name ∧
      h.size = headerSize + 16 + alignUp (dso_name.length + 1) 8
  | .symbol h addr len dso_id name =>
      h.wf ∧ h.type = SIMPLE_PERF_RECORD_SYMBOL ∧
      addr < 2 ^ 64 ∧ len < 2 ^ 64 ∧ dso_id < 2 ^ 64 ∧ cstrWf name ∧
      h.size = headerSize + 24 + alignUp (name.length + 1) 8
  | .tracingData h data =>
      h.wf ∧ h.type = PERF_RECORD_TRACING_DATA ∧
      data.length < 2 ^ 32 ∧ bytesWf data ∧
      h.size = headerSize + 4 + alignUp data.length 64
  | .unknown h data =>
      h.wf ∧
      h.type ∉ ([PERF_RECORD_MMAP, PERF_RECORD_MMAP2, PERF_RECORD_COMM, PERF_RECORD_EXIT,
        PERF_RECORD_FORK, PERF_RECORD_LOST, PERF_RECORD_SAMPLE, PERF_RECORD_TRACING_DATA,
        SIMPLE_PERF_RECORD_KERNEL_SYMBOL, SIMPLE_PERF_RECORD_DSO, SIMPLE_PERF_RECORD_SYMBOL,
        PERF_RECORD_BUILD_ID] : List Nat) ∧
      h.size = headerSize + data.length

/-! ## Round-trip lemmas, one per record variant -/

theorem sampleId_wf_ident (attr : EventAttr) (sid : SampleId) (hsid : sid.wf attr)
    (hident : attr.sample_id_all = true →
      hasBits attr.sample_type PERF_SAMPLE_IDENTIFIER = false) :
    sid.sample_id_all = true → hasBits sid.sample_type PERF_SAMPLE_IDENTIFIER = false := by
  obtain ⟨e1, e2, _⟩ := hsid
  rw [e1, e2]
  exact hident

theorem roundtrip_mmap (attr : EventAttr) (h : RecordHeader) (d : MmapRecordData)
    (fname : List Nat) (sid : SampleId)
    (hwf : wfRecord attr (.mmap h d fname sid))
    (hident : attr.sample_id_all = true →
      hasBits attr.sample_type PERF_SAMPLE_IDENTIFIER = false) :
    decodeRecord attr (encodeRecord (.mmap h d fname sid)) = .mmap h d fname sid := by
  obtain ⟨hh, htype, hb1, hb2, hb3, hb4, hb5, hcstr, hsid, hsz⟩ := hwf
  have hwl := SampleId.writeLen_of_no_ident sid (sampleId_wf_ident attr sid hsid hident)
  have hclen : (recordContent (.mmap h d fname sid)).length = h.size := by
    simp [recordContent, RecordHeader.toBytes, length_natToBytes, length_cstrPad8, hwl, hsz,
      headerSize]
    omega
  have henc : encodeRecord (.mmap h d fname sid) = recordContent (.mmap h d fname sid) := by
    simp only [encodeRecord]
    exact padTo_eq_self _ _ (by simp [PerfRecord.size, PerfRecord.header, hclen])
  have hrw := SampleId.read_write attr sid [] hsid hident
  rw [List.append_nil] at hrw
  rw [henc]
  have htake : ∀ t : List Nat, t.length = h.size → t.take h.size = t := by
    intro t ht
    rw [← ht]
    exact List.take_length t
  simp only [decodeRecord, readRecordFromBuffer, recordContent, List.append_assoc] at hclen ⊢
  rw [readHeader_toBytes_of_wf h _ hh]
  simp only [htake _ hclen, htype]
  norm_num [PERF_RECORD_MMAP, PERF_RECORD_BUILD_ID]
  simp [mmapOfBytes, readHeader_toBytes_of_wf h _ hh, rdN_natToBytes_append,
    rdCstr8_cstrPad8 _ _ (fun x hx => (hcstr x hx).2), hrw, pow_256_4, pow_256_8,
    Nat.mod_eq_of_lt, hb1, hb2, hb3, hb4, hb5]
  cases d
  dsimp only at hb1 hb2 hb3 hb4 hb5
  simp only [MmapRecordData.mk.injEq]
  omega

theorem roundtrip_mmap2 (attr : EventAttr) (h : RecordHeader) (d : Mmap2RecordData)
    (fname : List Nat) (sid : SampleId)
    (hwf : wfRecord attr (.mmap2 h d fname sid))
    (hident : attr.sample_id_all = true →
      hasBits attr.sample_type PERF_SAMPLE_IDENTIFIER = false) :
    decodeRecord attr (encodeRecord (.mmap2 h d fname sid)) = .mmap2 h d fname sid := by
  obtain ⟨hh, htype, hb1, hb2, hb3, hb4, hb5, hb6, hb7, hb8, hb9, hb10, hb11, hcstr, hsid,
    hsz⟩ := hwf
  have hwl := SampleId.writeLen_of_no_ident sid (sampleId_wf_ident attr sid hsid hident)
  have hclen : (recordContent (.mmap2 h d fname sid)).length = h.size := by
    simp [recordContent, RecordHeader.toBytes, length_natToBytes, length_cstrPad8, hwl, hsz,
      headerSize]
    omega
  have henc : encodeRecord (.mmap2 h d fname sid) = recordContent (.mmap2 h d fname sid) := by
    simp only [encodeRecord]
    exact padTo_eq_self _ _ (by simp [PerfRecord.size, PerfRecord.header, hclen])
  have hrw := SampleId.read_write attr sid [] hsid hident
  rw [List.append_nil] at hrw
  rw [henc]
  have htake : ∀ t : List Nat, t.length = h.size → t.take h.size = t := by
    intro t ht
    rw [← ht]
    exact List.take_length t
  simp only [decodeRecord, readRecordFromBuffer, recordContent, List.append_assoc] at hclen ⊢
  rw [readHeader_toBytes_of_wf h _ hh]
  simp only [htake _ hclen, htype]
  norm_num [PERF_RECORD_MMAP, PERF_RECORD_MMAP2, PERF_RECORD_BUILD_ID]
  simp [mmap2OfBytes, readHeader_toBytes_of_wf h _ hh, rdN_natToBytes_append,
    rdCstr8_cstrPad8 _ _ (fun x hx => (hcstr x hx).2), hrw, pow_256_4, pow_256_8,
    Nat.mod_eq_of_lt, hb1, hb2, hb3, hb4, hb5, hb6, hb7, hb8, hb9, hb10, hb11]
  cases d
  dsimp only at hb1 hb2 hb3 hb4 hb5 hb6 hb7 hb8 hb9 hb10 hb11
  simp only [Mmap2RecordData.mk.injEq]
  omega

theorem roundtrip_comm (attr : EventAttr) (h : RecordHeader) (d : CommRecordData)
    (c : List Nat) (sid : SampleId)
    (hwf : wfRecord attr (.comm h d c sid))
    (hident : attr.sample_id_all = true →
      hasBits attr.sample_type PERF_SAMPLE_IDENTIFIER = false) :
    decodeRecord attr (encodeRecord (.comm h d c sid)) = .comm h d c sid := by
  obtain ⟨hh, htype, hb1, hb2, hcstr, hsid, hsz⟩ := hwf
  have hwl := SampleId.writeLen_of_no_ident sid (sampleId_wf_ident attr sid hsid hident)
  have hclen : (recordContent (.comm h d c sid)).length = h.size := by
    simp [recordContent, RecordHeader.toBytes, length_natToBytes, length_cstrPad8, hwl, hsz,
      headerSize]
    omega
  have henc : encodeRecord (.comm h d c sid) = recordContent (.comm h d c sid) := by
    simp only [encodeRecord]
    exact padTo_eq_self _ _ (by simp [PerfRecord.size, PerfRecord.header, hclen])
  have hrw := SampleId.read_write attr sid [] hsid hident
  rw [List.append_nil] at hrw
  rw [henc]
  have htake : ∀ t : List Nat, t.length = h.size → t.take h.size = t := by
    intro t ht
    rw [← ht]
    exact List.take_length t
  simp only [decodeRecord, readRecordFromBuffer, recordContent, List.append_assoc] at hclen ⊢
  rw [readHeader_toBytes_of_wf h _ hh]
  simp only [htake _ hclen, htype]
  norm_num [PERF_RECORD_MMAP, PERF_RECORD_MMAP2, PERF_RECORD_COMM, PERF_RECORD_BUILD_ID]
  simp [commOfBytes, readHeader_toBytes_of_wf h _ hh, rdN_natToBytes_append,
    rdCstr8_cstrPad8 _ _ (fun x hx => (hcstr x hx).2), hrw, pow_256_4, pow_256_8,
    Nat.mod_eq_of_lt, hb1, hb2]
  cases d
  dsimp only at hb1 hb2
  simp only [CommRecordData.mk.injEq]
  omega

theorem roundtrip_exitOrFork (attr : EventAttr) (h : RecordHeader)
    (d : ExitOrForkRecordData) (sid : SampleId)
    (hwf : wfRecord attr (.exitOrFork h d sid))
    (hident : attr.sample_id_all = true →
      hasBits attr.sample_type PERF_SAMPLE_IDENTIFIER = false) :
    decodeRecord attr (encodeRecord (.exitOrFork h d sid)) = .exitOrFork h d sid := by
  obtain ⟨hh, htype, hb1, hb2, hb3, hb4, hb5, hsid, hsz⟩ := hwf
  have hwl := SampleId.writeLen_of_no_ident sid (sampleId_wf_ident attr sid hsid hident)
  have hclen : (recordContent (.exitOrFork h d sid)).length = h.size := by
    simp [recordContent, RecordHeader.toBytes, length_natToBytes, hwl, hsz, headerSize]
    omega
  have henc : encodeRecord (.exitOrFork h d sid) = recordContent (.exitOrFork h d sid) := by
    simp only [encodeRecord]
    exact padTo_eq_self _ _ (by simp [PerfRecord.size, PerfRecord.header, hclen])
  have hrw := SampleId.read_write attr sid [] hsid hident
  rw [List.append_nil] at hrw
  rw [henc]
  have htake : ∀ t : List Nat, t.length = h.size → t.take h.size = t := by
    intro t ht
    rw [← ht]
    exact List.take_length t
  simp only [decodeRecord, readRecordFromBuffer, recordContent, List.append_assoc] at hclen ⊢
  rw [readHeader_toBytes_of_wf h _ hh]
  rcases htype with htype | htype <;>
  · simp only [htake _ hclen, htype]
    norm_num [PERF_RECORD_MMAP, PERF_RECORD_MMAP2, PERF_RECORD_COMM, PERF_RECORD_EXIT,
      PERF_RECORD_FORK, PERF_RECORD_BUILD_ID]
    simp [exitOrForkOfBytes, readHeader_toBytes_of_wf h _ hh, rdN_natToBytes_append, hrw,
      pow_256_4, pow_256_8, Nat.mod_eq_of_lt, hb1, hb2, hb3, hb4, hb5]
    cases d
    dsimp only at hb1 hb2 hb3 hb4 hb5
    simp only [ExitOrForkRecordData.mk.injEq]
    omega

theorem roundtrip_lost (attr : EventAttr) (h : RecordHeader) (id lostCount : Nat)
    (sid : SampleId)
    (hwf : wfRecord attr (.lost h id lostCount sid))
    (hident : attr.sample_id_all = true →
      hasBits attr.sample_type PERF_SAMPLE_IDENTIFIER = false) :
    decodeRecord attr (encodeRecord (.lost h id lostCount sid)) = .lost h id lostCount sid := by
  obtain ⟨hh, htype, hb1, hb2, hsid, hsz⟩ := hwf
  have hwl := SampleId.writeLen_of_no_ident sid (sampleId_wf_ident attr sid hsid hident)
  have hclen : (recordContent (.lost h id lostCount sid)).length = h.size := by
    simp [recordContent, RecordHeader.toBytes, length_natToBytes, hwl, hsz, headerSize]
    omega
  have henc : encodeRecord (.lost h id lostCount sid) = recordContent (.lost h id lostCount sid) := by
    simp only [encodeRecord]
    exact padTo_eq_self _ _ (by simp [PerfRecord.size, PerfRecord.header, hclen])
  have hrw := SampleId.read_write attr sid [] hsid hident
  rw [List.append_nil] at hrw
  rw [henc]
  have htake : ∀ t : List Nat, t.length = h.size → t.take h.size = t := by
    intro t ht
    rw [← ht]
    exact List.take_length t
  simp only [decodeRecord, readRecordFromBuffer, recordContent, List.append_assoc] at hclen ⊢
  rw [readHeader_toBytes_of_wf h _ hh]
  simp only [htake _ hclen, htype]
  norm_num [PERF_RECORD_MMAP, PERF_RECORD_MMAP2, PERF_RECORD_COMM, PERF_RECORD_EXIT,
    PERF_RECORD_FORK, PERF_RECORD_LOST, PERF_RECORD_BUILD_ID]
  simp [lostOfBytes, readHeader_toBytes_of_wf h _ hh, rdN_natToBytes_append, hrw,
    pow_256_8, Nat.mod_eq_of_lt, hb1, hb2]
  omega

theorem length_toBytes (h : RecordHeader) : h.toBytes.length = 8 := by
  simp [RecordHeader.toBytes, length_natToBytes]

theorem encode_take (r : PerfRecord) (hle : (recordContent r).length ≤ r.header.size) :
    (encodeRecord r).take r.header.size = encodeRecord r := by
  have hlen : (encodeRecord r).length ≤ r.header.size := by
    cases r <;>
      simp_all [encodeRecord, padTo_length, PerfRecord.size, PerfRecord.header]
  exact List.take_of_length_le hlen

theorem roundtrip_buildId (attr : EventAttr) (h : RecordHeader) (pid : Nat)
    (bid fname : List Nat)
    (hwf : wfRecord attr (.buildId h pid bid fname)) :
    decodeRecord attr (encodeRecord (.buildId h pid bid fname)) = .buildId h pid bid fname := by
  obtain ⟨hh, htype, hb1, hbid, _hbidB, hcstr, hsz⟩ := hwf
  have hle : (recordContent (.buildId h pid bid fname)).length ≤ h.size := by
    have := le_alignUp (fname.length + 1) 64 (by omega)
    simp [recordContent, length_toBytes, length_natToBytes, padTo_length, hsz, headerSize, hbid]
    omega
  have henc : encodeRecord (.buildId h pid bid fname)
      = recordContent (.buildId h pid bid fname) ++
          List.replicate (h.size - (recordContent (.buildId h pid bid fname)).length) 0 := by
    simp [encodeRecord, padTo, PerfRecord.size, PerfRecord.header]
  have htk := encode_take (.buildId h pid bid fname) (by simpa [PerfRecord.header] using hle)
  rw [henc] at htk
  have hpad : padTo 24 bid = bid ++ List.replicate 4 0 := by
    simp [padTo, hbid]
  have hbid20 : ∀ X : List Nat, (bid ++ X).take 20 = bid := fun X => List.take_left' hbid
  have hbid24 : ∀ X : List Nat, (bid ++ (0 :: 0 :: 0 :: 0 :: X)).drop 24 = X := by
    intro X
    have : bid ++ (0 :: 0 :: 0 :: 0 :: X) = (bid ++ [0, 0, 0, 0]) ++ X := by simp
    rw [this]
    exact List.drop_left' (by simp [hbid])
  have hfn : ∀ t : List Nat, (fname ++ 0 :: t).takeWhile (fun b => !decide (b = 0)) = fname := by
    intro t
    have := takeWhile_ne_zero_append fname t (fun x hx => (hcstr x hx).2)
    simpa using this
  rw [henc]
  simp only [decodeRecord, readRecordFromBuffer, recordContent, hpad, List.append_assoc, PerfRecord.header] at htk ⊢
  rw [readHeader_toBytes_of_wf h _ hh]
  simp only [htk, htype]
  norm_num [PERF_RECORD_MMAP, PERF_RECORD_MMAP2, PERF_RECORD_COMM, PERF_RECORD_EXIT,
    PERF_RECORD_FORK, PERF_RECORD_LOST, PERF_RECORD_SAMPLE, PERF_RECORD_TRACING_DATA,
    SIMPLE_PERF_RECORD_KERNEL_SYMBOL, SIMPLE_PERF_RECORD_DSO, SIMPLE_PERF_RECORD_SYMBOL,
    PERF_RECORD_BUILD_ID]
  simp [buildIdOfBytes, readHeader_toBytes_of_wf h _ hh, rdN_natToBytes_append,
    hbid20, hbid24, hfn]
  omega

theorem roundtrip_kernelSymbol (attr : EventAttr) (h : RecordHeader) (kallsyms : List Nat)
    (hwf : wfRecord attr (.kernelSymbol h kallsyms)) :
    decodeRecord attr (encodeRecord (.kernelSymbol h kallsyms)) = .kernelSymbol h kallsyms := by
  obtain ⟨hh, htype, hb1, _hB, hsz⟩ := hwf
  have hle : (recordContent (.kernelSymbol h kallsyms)).length ≤ h.size := by
    have := le_alignUp kallsyms.length 8 (by omega)
    simp [recordContent, length_toBytes, length_natToBytes, hsz, headerSize]
    omega
  have henc : encodeRecord (.kernelSymbol h kallsyms)
      = recordContent (.kernelSymbol h kallsyms) ++
          List.replicate (h.size - (recordContent (.kernelSymbol h kallsyms)).length) 0 := by
    simp [encodeRecord, padTo, PerfRecord.size, PerfRecord.header]
  have htk := encode_take (.kernelSymbol h kallsyms) (by simpa [PerfRecord.header] using hle)
  rw [henc] at htk
  rw [henc]
  simp only [decodeRecord, readRecordFromBuffer, recordContent, List.append_assoc, PerfRecord.header] at htk ⊢
  rw [readHeader_toBytes_of_wf h _ hh]
  simp only [htk, htype]
  norm_num [PERF_RECORD_MMAP, PERF_RECORD_MMAP2, PERF_RECORD_COMM, PERF_RECORD_EXIT,
    PERF_RECORD_FORK, PERF_RECORD_LOST, PERF_RECORD_SAMPLE, PERF_RECORD_TRACING_DATA,
    SIMPLE_PERF_RECORD_KERNEL_SYMBOL, PERF_RECORD_BUILD_ID]
  have hmod : kallsyms.length % 4294967296 = kallsyms.length := by omega
  have htkl : ∀ X : List Nat, (kallsyms ++ X).take kallsyms.length = kallsyms :=
    fun X => List.take_left' rfl
  simp [kernelSymbolOfBytes, readHeader_toBytes_of_wf h _ hh, rdN_natToBytes_append, hmod,
    htkl]

theorem roundtrip_dso (attr : EventAttr) (h : RecordHeader) (dso_type dso_id : Nat)
    (dso_name : List Nat)
    (hwf : wfRecord attr (.dso h dso_type dso_id dso_name)) :
    decodeRecord attr (encodeRecord (.dso h dso_type dso_id dso_name))
      = .dso h dso_type dso_id dso_name := by
  obtain ⟨hh, htype, hb1, hb2, hcstr, hsz⟩ := hwf
  have hle : (recordContent (.dso h dso_type dso_id dso_name)).length ≤ h.size := by
    have := le_alignUp (dso_name.length + 1) 8 (by omega)
    simp [recordContent, length_toBytes, length_natToBytes, hsz, headerSize]
    omega
  have henc : encodeRecord (.dso h dso_type dso_id dso_name)
      = recordContent (.dso h dso_type dso_id dso_name) ++
          List.replicate (h.size - (recordContent (.dso h dso_type dso_id dso_name)).length) 0 := by
    simp [encodeRecord, padTo, PerfRecord.size, PerfRecord.header]
  have htk := encode_take (.dso h dso_type dso_id dso_name) (by simpa [PerfRecord.header] using hle)
  rw [henc] at htk
  rw [henc]
  simp only [decodeRecord, readRecordFromBuffer, recordContent, List.append_assoc, PerfRecord.header] at htk ⊢
  rw [readHeader_toBytes_of_wf h _ hh]
  simp only [htk, htype]
  norm_num [PERF_RECORD_MMAP, PERF_RECORD_MMAP2, PERF_RECORD_COMM, PERF_RECORD_EXIT,
    PERF_RECORD_FORK, PERF_RECORD_LOST, PERF_RECORD_SAMPLE, PERF_RECORD_TRACING_DATA,
    SIMPLE_PERF_RECORD_KERNEL_SYMBOL, SIMPLE_PERF_RECORD_DSO, PERF_RECORD_BUILD_ID]
  have hfn : ∀ t : List Nat,
      (dso_name ++ 0 :: t).takeWhile (fun b => !decide (b = 0)) = dso_name := by
    intro t
    have := takeWhile_ne_zero_append dso_name t (fun x hx => (hcstr x hx).2)
    simpa using this
  simp [dsoOfBytes, readHeader_toBytes_of_wf h _ hh, rdN_natToBytes_append, hfn]
  omega

theorem roundtrip_symbol (attr : EventAttr) (h : RecordHeader) (addr len dso_id : Nat)
    (name : List Nat)
    (hwf : wfRecord attr (.symbol h addr len dso_id name)) :
    decodeRecord attr (encodeRecord (.symbol h addr len dso_id name))
      = .symbol h addr len dso_id name := by
  obtain ⟨hh, htype, hb1, hb2, hb3, hcstr, hsz⟩ := hwf
  have hle : (recordContent (.symbol h addr len dso_id name)).length ≤ h.size := by
    have := le_alignUp (name.length + 1) 8 (by omega)
    simp [recordContent, length_toBytes, length_natToBytes, hsz, headerSize]
    omega
  have henc : encodeRecord (.symbol h addr len dso_id name)
      = recordContent (.symbol h addr len dso_id name) ++
          List.replicate (h.size - (recordContent (.symbol h addr len dso_id name)).length) 0 := by
    simp [encodeRecord, padTo, PerfRecord.size, PerfRecord.header]
  have htk := encode_take (.symbol h addr len dso_id name)
    (by simpa [PerfRecord.header] using hle)
  rw [henc] at htk
  rw [henc]
  simp only [decodeRecord, readRecordFromBuffer, recordContent, List.append_assoc, PerfRecord.header] at htk ⊢
  rw [readHeader_toBytes_of_wf h _ hh]
  simp only [htk, htype]
  norm_num [PERF_RECORD_MMAP, PERF_RECORD_MMAP2, PERF_RECORD_COMM, PERF_RECORD_EXIT,
    PERF_RECORD_FORK, PERF_RECORD_LOST, PERF_RECORD_SAMPLE, PERF_RECORD_TRACING_DATA,
    SIMPLE_PERF_RECORD_KERNEL_SYMBOL, SIMPLE_PERF_RECORD_DSO, SIMPLE_PERF_RECORD_SYMBOL, PERF_RECORD_BUILD_ID]
  have hfn : ∀ t : List Nat,
      (name ++ 0 :: t).takeWhile (fun b => !decide (b = 0)) = name := by
    intro t
    have := takeWhile_ne_zero_append name t (fun x hx => (hcstr x hx).2)
    simpa using this
  simp [symbolOfBytes, readHeader_toBytes_of_wf h _ hh, rdN_natToBytes_append, hfn]
  omega

theorem roundtrip_tracingData (attr : EventAttr) (h : RecordHeader) (data : List Nat)
    (hwf : wfRecord attr (.tracingData h data)) :
    decodeRecord attr (encodeRecord (.tracingData h data)) = .tracingData h data := by
  obtain ⟨hh, htype, hb1, _hB, hsz⟩ := hwf
  have hle : (recordContent (.tracingData h data)).length ≤ h.size := by
    have := le_alignUp data.length 64 (by omega)
    simp [recordContent, length_toBytes, length_natToBytes, hsz, headerSize]
    omega
  have henc : encodeRecord (.tracingData h data)
      = recordContent (.tracingData h data) ++
          List.replicate (h.size - (recordContent (.tracingData h data)).length) 0 := by
    simp [encodeRecord, padTo, PerfRecord.size, PerfRecord.header]
  have htk := encode_take (.tracingData h data) (by simpa [PerfRecord.header] using hle)
  rw [henc] at htk
  rw [henc]
  simp only [decodeRecord, readRecordFromBuffer, recordContent, List.append_assoc, PerfRecord.header] at htk ⊢
  rw [readHeader_toBytes_of_wf h _ hh]
  simp only [htk, htype]
  norm_num [PERF_RECORD_MMAP, PERF_RECORD_MMAP2, PERF_RECORD_COMM, PERF_RECORD_EXIT,
    PERF_RECORD_FORK, PERF_RECORD_LOST, PERF_RECORD_SAMPLE, PERF_RECORD_TRACING_DATA, PERF_RECORD_BUILD_ID]
  have hmod : data.length % 4294967296 = data.length := by omega
  have htkl : ∀ X : List Nat, (data ++ X).take data.length = data :=
    fun X => List.take_left' rfl
  simp [tracingDataOfBytes, readHeader_toBytes_of_wf h _ hh, rdN_natToBytes_append, hmod,
    htkl]

theorem roundtrip_unknown (attr : EventAttr) (h : RecordHeader) (data : List Nat)
    (hwf : wfRecord attr (.unknown h data)) :
    decodeRecord attr (encodeRecord (.unknown h data)) = .unknown h data := by
  obtain ⟨hh, htype, hsz⟩ := hwf
  have hclen : (recordContent (.unknown h data)).length = h.size := by
    simp [recordContent, length_toBytes, hsz, headerSize]
  have henc : encodeRecord (.unknown h data) = recordContent (.unknown h data) := by
    simp only [encodeRecord]
    exact padTo_eq_self _ _ (by simp [PerfRecord.size, PerfRecord.header, hclen])
  rw [henc]
  have htake : ∀ t : List Nat, t.length = h.size → t.take h.size = t := by
    intro t ht
    rw [← ht]
    exact List.take_length t
  simp only [List.mem_cons, List.mem_singleton, not_or] at htype
  obtain ⟨hn1, hn2, hn3, hn4, hn5, hn6, hn7, hn8, hn9, hn10, hn11, hn12⟩ := htype
  simp only [decodeRecord, readRecordFromBuffer, recordContent] at hclen ⊢
  rw [readHeader_toBytes_of_wf h _ hh]
  simp only [htake _ hclen]
  simp [hn1, hn2, hn3, hn4, hn5, hn6, hn7, hn8, hn9, hn10, hn11, hn12,
    unknownOfBytes, readHeader_toBytes_of_wf h _ hh, headerSize,
    List.drop_left' (length_toBytes h)]

theorem optRd_write (c : Bool) (k v deflt : Nat) (rest : List Nat) :
    optRd c k deflt ((if c then natToBytes k v else []) ++ rest)
      = ((if c then v % 256 ^ k else deflt), rest) := by
  cases c <;> simp [optRd]

theorem optRd2_write (c : Bool) (a b : Nat) (rest : List Nat) :
    optRd2 c ((if c then natToBytes 4 a ++ natToBytes 4 b else []) ++ rest)
      = (((if c then a % 256 ^ 4 else 0), (if c then b % 256 ^ 4 else 0)), rest) := by
  cases c <;> simp [optRd2, List.append_assoc]

theorem rdU64s_wrU64s (vs rest : List Nat) :
    rdU64s vs.length (wrU64s vs ++ rest) = (vs.map (fun v => v % 256 ^ 8), rest) := by
  induction vs with
  | nil => simp [rdU64s, wrU64s]
  | cons v vs ih => simp [rdU64s, wrU64s, List.append_assoc, ih]

theorem rdU64s_wrU64s_of_len (n : Nat) (vs rest : List Nat) (h : n = vs.length) :
    rdU64s n (wrU64s vs ++ rest) = (vs.map (fun v => v % 256 ^ 8), rest) := by
  rw [h]
  exact rdU64s_wrU64s vs rest

theorem rdBranch_wrBranch (bs : List (Nat × Nat × Nat)) (rest : List Nat) :
    rdBranch bs.length (wrBranch bs ++ rest)
      = (bs.map (fun e => (e.1 % 256 ^ 8, e.2.1 % 256 ^ 8, e.2.2 % 256 ^ 8)), rest) := by
  induction bs with
  | nil => simp [rdBranch, wrBranch]
  | cons e bs ih =>
    obtain ⟨f, t, fl⟩ := e
    simp [rdBranch, wrBranch, List.append_assoc, ih]

theorem map_mod_eq_self (l : List Nat) (m : Nat) (h : ∀ v ∈ l, v < m) :
    l.map (fun v => v % m) = l := by
  induction l with
  | nil => rfl
  | cons v vs ih =>
    simp only [List.map_cons, Nat.mod_eq_of_lt (h v (by simp))]
    rw [ih (fun x hx => h x (by simp [hx]))]

theorem map_mod3_eq_self (l : List (Nat × Nat × Nat)) (m : Nat)
    (h : ∀ e ∈ l, e.1 < m ∧ e.2.1 < m ∧ e.2.2 < m) :
    l.map (fun e => (e.1 % m, e.2.1 % m, e.2.2 % m)) = l := by
  induction l with
  | nil => rfl
  | cons e es ih =>
    obtain ⟨h1, h2, h3⟩ := h e (by simp)
    simp only [List.map_cons, Nat.mod_eq_of_lt h1, Nat.mod_eq_of_lt h2, Nat.mod_eq_of_lt h3]
    rw [ih (fun x hx => h x (by simp [hx]))]

theorem rdN_natToBytes (k v : Nat) : rdN k (natToBytes k v) = (v % 256 ^ k, []) := by
  have := rdN_natToBytes_append k v []
  simpa using this

theorem rdU64s_wrU64s_nil (n : Nat) (vs : List Nat) (h : n = vs.length) :
    rdU64s n (wrU64s vs) = (vs.map (fun v => v % 256 ^ 8), []) := by
  have := rdU64s_wrU64s_of_len n vs [] h
  simpa using this

theorem rdBranch_wrBranch_nil (bs : List (Nat × Nat × Nat)) :
    rdBranch bs.length (wrBranch bs)
      = (bs.map (fun e => (e.1 % 256 ^ 8, e.2.1 % 256 ^ 8, e.2.2 % 256 ^ 8)), []) := by
  have := rdBranch_wrBranch bs []
  simpa using this

theorem if_mod_eq (c : Bool) (v M : Nat) (hb : v < M) (hz : c = false → v = 0) :
    (if c then v % M else 0) = v := by
  cases c
  · simp [hz rfl]
  · simp [Nat.mod_eq_of_lt hb]

theorem if_mod_eq2 (c1 c2 : Bool) (v M : Nat) (hb : v < M)
    (hz : ¬ (c1 = true ∨ c2 = true) → v = 0) :
    (if c2 then v % M else if c1 then v % M else 0) = v := by
  cases c1 <;> cases c2 <;> simp_all [Nat.mod_eq_of_lt hb]

set_option maxHeartbeats 3200000 in
theorem roundtrip_sample (attr : EventAttr) (h : RecordHeader) (s : SampleRecordData)
    (hwf : wfRecord attr (.sample h s)) :
    decodeRecord attr (encodeRecord (.sample h s)) = .sample h s := by
  obtain ⟨st_f, id_f, ip_f, pid_f, tid_f, time_f, addr_f, stream_f, cpu_f, res_f, period_f,
    ips_f, raw_f, bs_f, abi_f, mask_f, regs_f, stk_f, dyn_f⟩ := s
  obtain ⟨hh, htype, hst, ⟨hbid, hbip, hbpid, hbtid, hbtime, hbaddr, hbstream, hbcpu, hbres,
    hbperiod, hbipslen, hbips, hbrawlen, _hbraw, hbbslen, hbbs, hbabi, hbregs, hbstklen,
    _hbstk, hbdyn⟩, ⟨hregscond, hstkcond, hzid, hzip, hztid, hztime, hzaddr, hzstream, hzcpu,
    hzperiod, hzips, hzraw, hzbs, hzregs, hzsu⟩, hsz⟩ := hwf
  dsimp only at *
  subst hst
  have hclen :
      (recordContent (.sample h ⟨attr.sample_type, id_f, ip_f, pid_f, tid_f, time_f, addr_f,
        stream_f, cpu_f, res_f, period_f, ips_f, raw_f, bs_f, abi_f, mask_f, regs_f, stk_f,
        dyn_f⟩)).length = h.size := by
    simp [recordContent, List.length_append, length_toBytes, hsz, headerSize]
  have htake : ∀ t : List Nat, t.length = h.size → t.take h.size = t := by
    intro t ht
    rw [← ht]
    exact List.take_length t
  have hips_map : ips_f.map (fun v => v % 18446744073709551616) = ips_f :=
    map_mod_eq_self _ _ (fun v hv => by have := hbips v hv; omega)
  have hregs_map : regs_f.map (fun v => v % 18446744073709551616) = regs_f :=
    map_mod_eq_self _ _ (fun v hv => by have := hbregs v hv; omega)
  have hbs_map : bs_f.map
      (fun e => (e.1 % 18446744073709551616, e.2.1 % 18446744073709551616,
        e.2.2 % 18446744073709551616)) = bs_f :=
    map_mod3_eq_self _ _ (fun e he => by
      obtain ⟨a, b, c⟩ := hbbs e he
      exact ⟨by omega, by omega, by omega⟩)
  have hraw_take : ∀ X : List Nat, (raw_f ++ X).take raw_f.length = raw_f :=
    fun X => List.take_left' rfl
  have hraw_drop : ∀ X : List Nat, (raw_f ++ X).drop raw_f.length = X :=
    fun X => List.drop_left' rfl
  have hstk_take : ∀ X : List Nat, (stk_f ++ X).take stk_f.length = stk_f :=
    fun X => List.take_left' rfl
  have hstk_drop : ∀ X : List Nat, (stk_f ++ X).drop stk_f.length = X :=
    fun X => List.drop_left' rfl
  have hips_mod : ips_f.length % 18446744073709551616 = ips_f.length := by omega
  have hraw_mod : raw_f.length % 4294967296 = raw_f.length := by omega
  have hbs_mod : bs_f.length % 18446744073709551616 = bs_f.length := by omega
  have hstk_mod : stk_f.length % 18446744073709551616 = stk_f.length := by omega
  have habi_mod : abi_f % 18446744073709551616 = abi_f := by omega
  have hdyn_mod : dyn_f % 18446744073709551616 = dyn_f := by omega
  have henc : encodeRecord (.sample h ⟨attr.sample_type, id_f, ip_f, pid_f, tid_f, time_f,
      addr_f, stream_f, cpu_f, res_f, period_f, ips_f, raw_f, bs_f, abi_f, mask_f, regs_f,
      stk_f, dyn_f⟩) = recordContent (.sample h ⟨attr.sample_type, id_f, ip_f, pid_f, tid_f,
      time_f, addr_f, stream_f, cpu_f, res_f, period_f, ips_f, raw_f, bs_f, abi_f, mask_f,
      regs_f, stk_f, dyn_f⟩) := rfl
  rw [henc]
  simp only [decodeRecord, readRecordFromBuffer, recordContent, List.append_assoc] at hclen ⊢
  rw [readHeader_toBytes_of_wf h _ hh]
  simp only [htake _ hclen, htype]
  norm_num [PERF_RECORD_MMAP, PERF_RECORD_MMAP2, PERF_RECORD_COMM, PERF_RECORD_EXIT,
    PERF_RECORD_FORK, PERF_RECORD_LOST, PERF_RECORD_SAMPLE, PERF_RECORD_BUILD_ID]
  have eid : (if hasBits attr.sample_type PERF_SAMPLE_ID then id_f % 18446744073709551616
      else if hasBits attr.sample_type PERF_SAMPLE_IDENTIFIER then
        id_f % 18446744073709551616 else 0) = id_f :=
    if_mod_eq2 _ _ _ _ (by omega) hzid
  have eip : (if hasBits attr.sample_type PERF_SAMPLE_IP then ip_f % 18446744073709551616
      else 0) = ip_f := if_mod_eq _ _ _ (by omega) hzip
  have epid : (if hasBits attr.sample_type PERF_SAMPLE_TID then pid_f % 4294967296
      else 0) = pid_f := if_mod_eq _ _ _ (by omega) (fun hc => (hztid hc).1)
  have etid : (if hasBits attr.sample_type PERF_SAMPLE_TID then tid_f % 4294967296
      else 0) = tid_f := if_mod_eq _ _ _ (by omega) (fun hc => (hztid hc).2)
  have etime : (if hasBits attr.sample_type PERF_SAMPLE_TIME then time_f % 18446744073709551616
      else 0) = time_f := if_mod_eq _ _ _ (by omega) hztime
  have eaddr : (if hasBits attr.sample_type PERF_SAMPLE_ADDR then addr_f % 18446744073709551616
      else 0) = addr_f := if_mod_eq _ _ _ (by omega) hzaddr
  have estream : (if hasBits attr.sample_type PERF_SAMPLE_STREAM_ID then
      stream_f % 18446744073709551616 else 0) = stream_f :=
    if_mod_eq _ _ _ (by omega) hzstream
  have ecpu : (if hasBits attr.sample_type PERF_SAMPLE_CPU then cpu_f % 4294967296
      else 0) = cpu_f := if_mod_eq _ _ _ (by omega) (fun hc => (hzcpu hc).1)
  have eres : (if hasBits attr.sample_type PERF_SAMPLE_CPU then res_f % 4294967296
      else 0) = res_f := if_mod_eq _ _ _ (by omega) (fun hc => (hzcpu hc).2)
  have eperiod : (if hasBits attr.sample_type PERF_SAMPLE_PERIOD then
      period_f % 18446744073709551616 else 0) = period_f :=
    if_mod_eq _ _ _ (by omega) hzperiod
  have hregs_len : hasBits attr.sample_type PERF_SAMPLE_REGS_USER = true → abi_f ≠ 0 →
      bitCount64 attr.sample_regs_user = regs_f.length :=
    fun hc hne => ((hregscond hc).2 hne).2.symm
  have hmask_eq : hasBits attr.sample_type PERF_SAMPLE_REGS_USER = true → abi_f ≠ 0 →
      mask_f = attr.sample_regs_user := fun hc hne => ((hregscond hc).2 hne).1
  have hmask0 : hasBits attr.sample_type PERF_SAMPLE_REGS_USER = true → abi_f = 0 →
      mask_f = 0 := fun hc h0 => ((hregscond hc).1 h0).1
  have hregs0 : hasBits attr.sample_type PERF_SAMPLE_REGS_USER = true → abi_f = 0 →
      regs_f = [] := fun hc h0 => ((hregscond hc).1 h0).2
  have hdyn0 : hasBits attr.sample_type PERF_SAMPLE_STACK_USER = true → stk_f = [] →
      dyn_f = 0 := fun hc h0 => hstkcond hc h0
  simp only [sampleOfBytes]
  rw [readHeader_toBytes_of_wf h _ hh]
  simp only [sampleContent, List.append_assoc]
  simp only [optRd_write, optRd2_write]
  cases hcc : hasBits attr.sample_type PERF_SAMPLE_CALLCHAIN <;>
  cases hrw : hasBits attr.sample_type PERF_SAMPLE_RAW <;>
  cases hbr : hasBits attr.sample_type PERF_SAMPLE_BRANCH_STACK <;>
  cases hrg : hasBits attr.sample_type PERF_SAMPLE_REGS_USER <;>
  cases hsu : hasBits attr.sample_type PERF_SAMPLE_STACK_USER <;>
  by_cases habi0 : abi_f = 0 <;>
  by_cases hstk0 : stk_f = [] <;>
  · simp [hcc, hrw, hbr, hrg, hsu, habi0, hstk0, rdN_natToBytes_append, rdN_natToBytes,
      rdU64s_wrU64s_of_len, rdU64s_wrU64s_nil, rdBranch_wrBranch, rdBranch_wrBranch_nil,
      hips_mod, hraw_mod, hbs_mod, hstk_mod,
      habi_mod, hdyn_mod, hips_map, hregs_map, hbs_map, hraw_take, hraw_drop, hstk_take,
      hstk_drop, hregs_len, hmask_eq, hmask0, hregs0, hdyn0, hzips, hzraw, hzbs, hzregs,
      hzsu, eid, eip, epid, etid, etime, eaddr, estream, ecpu, eres, eperiod,
      List.append_assoc]

instance (attr : EventAttr) (r : PerfRecord) : Decidable (wfRecord attr r) := by
  cases r <;> (simp only [wfRecord]; infer_instance)

/-- C1 (amended): decoding the bytes produced by encoding a well-formed
record under its governing attr reproduces the record, for every variant —
provided that, when the attr makes non-sample records carry a `sample_id`
trailer (`sample_id_all`), the mask does not include
`PERF_SAMPLE_IDENTIFIER`: `SampleId::WriteToBinaryFormat` never writes the
IDENTIFIER field that `SampleId::ReadFromBinaryFormat` consumes, so for
non-sample records that field cannot round-trip (for `SampleRecord` itself
the IDENTIFIER field is written and read symmetrically and no restriction
is needed). -/
theorem decode_encode_roundtrip (attr : EventAttr) (r : PerfRecord)
    (hwf : wfRecord attr r)
    (hident : r.isSample = true ∨ (attr.sample_id_all = true →
      hasBits attr.sample_type PERF_SAMPLE_IDENTIFIER = false)) :
    decodeRecord attr (encodeRecord r) = r := by
  cases r with
  | mmap h d fname sid =>
    exact roundtrip_mmap attr h d fname sid hwf
      (hident.resolve_left (by simp [PerfRecord.isSample]))
  | mmap2 h d fname sid =>
    exact roundtrip_mmap2 attr h d fname sid hwf
      (hident.resolve_left (by simp [PerfRecord.isSample]))
  | comm h d c sid =>
    exact roundtrip_comm attr h d c sid hwf
      (hident.resolve_left (by simp [PerfRecord.isSample]))
  | exitOrFork h d sid =>
    exact roundtrip_exitOrFork attr h d sid hwf
      (hident.resolve_left (by simp [PerfRecord.isSample]))
  | lost h id lostCount sid =>
    exact roundtrip_lost attr h id lostCount sid hwf
      (hident.resolve_left (by simp [PerfRecord.isSample]))
  | sample h s => exact roundtrip_sample attr h s hwf
  | buildId h pid bid fname => exact roundtrip_buildId attr h pid bid fname hwf
  | kernelSymbol h kallsyms => exact roundtrip_kernelSymbol attr h kallsyms hwf
  | dso h dso_type dso_id dso_name => exact roundtrip_dso attr h dso_type dso_id dso_name hwf
  | symbol h addr len dso_id name => exact roundtrip_symbol attr h addr len dso_id name hwf
  | tracingData h data => exact roundtrip_tracingData attr h data hwf
  | unknown h data => exact roundtrip_unknown attr h data hwf

/-- A concrete attr/record pair for the round-trip witness:
`sample_type = PERF_SAMPLE_TID`, `sample_id_all = 1`, an `MmapRecord` with a
one-byte filename and a populated trailer. -/
def attrW : EventAttr := { sample_type := 2, sample_id_all := true, sample_regs_user := 0 }

def recW : PerfRecord :=
  .mmap { type := 1, misc := 2, size := 56 }
    { pid := 11, tid := 12, addr := 4096, len := 8192, pgoff := 0 } [97]
    { sample_id_all := true, sample_type := 2, tid_pid := 11, tid_tid := 12 }

/-- Witness for `decode_encode_roundtrip` at a concrete record. -/
theorem decode_encode_roundtrip_witness :
    wfRecord attrW recW ∧ decodeRecord attrW (encodeRecord recW) = recW :=
  ⟨by decide, decode_encode_roundtrip attrW recW (by decide) (by decide)⟩

/-- The attr/record pair on which the round-trip fails as originally
claimed: `sample_type = PERF_SAMPLE_IDENTIFIER` with `sample_id_all = 1`.
`CreateContent` stores the event id 1 in the trailer and `Size()` counts its
8 bytes, but `WriteToBinaryFormat` never writes it, so decoding reads zero
padding and the id comes back 0. -/
def attrI : EventAttr := { sample_type := 65536, sample_id_all := true, sample_regs_user := 0 }

def recI : PerfRecord :=
  .mmap { type := 1, misc := 2, size := 56 }
    { pid := 11, tid := 12, addr := 4096, len := 8192, pgoff := 0 } [97]
    { sample_id_all := true, sample_type := 65536, id := 1 }

/-- C1 counterexample: a well-formed `MmapRecord` whose `sample_id` trailer
is governed by `PERF_SAMPLE_IDENTIFIER` does not round-trip. -/
theorem decode_encode_roundtrip_counterexample :
    wfRecord attrI recI ∧ decodeRecord attrI (encodeRecord recI) ≠ recI := by
  constructor
  · decide
  · decide

/-! ## C7: `BinaryFormat().size()` versus the header size field -/

/-- C7 (amended): every `BinaryFormat()` except `SampleRecord`'s returns a
buffer of exactly `size()` bytes (the `std::vector<char> buf(size())`
allocation, given that the written content fits in it);
`SampleRecord::BinaryFormat` instead resizes the buffer to the bytes
actually written (record.cpp:540-543), which equals `size()` exactly when
the header size field is consistent with the encoded fields (the state
`AdjustSizeBasedOnData` establishes). -/
theorem binaryFormat_length_eq_size (r : PerfRecord) :
    (r.isSample = false → (recordContent r).length ≤ r.size →
      (encodeRecord r).length = r.size) ∧
    (r.isSample = true → (encodeRecord r).length = (recordContent r).length) ∧
    (r.isSample = true → r.size = (recordContent r).length →
      (encodeRecord r).length = r.size) := by
  refine ⟨fun h1 h2 => ?_, fun h1 => ?_, fun h1 h2 => ?_⟩ <;>
    cases r <;>
    simp_all [encodeRecord, PerfRecord.isSample, padTo_length, PerfRecord.size,
      PerfRecord.header]

/-- Witness for `binaryFormat_length_eq_size` at the concrete `MmapRecord`
`recW`. -/
theorem binaryFormat_length_eq_size_witness :
    recW.isSample = false ∧ (recordContent recW).length ≤ recW.size ∧
    (encodeRecord recW).length = recW.size :=
  ⟨by decide, by decide, (binaryFormat_length_eq_size recW).1 (by decide) (by decide)⟩

/-- An attr selecting only `PERF_SAMPLE_IP`, and a 24-byte buffer holding a
sample record with 8 trailing bytes (the constructor tolerates them, logging
"Record has N bytes left"). -/
def attrIP : EventAttr := { sample_type := 1, sample_id_all := false, sample_regs_user := 0 }

def bufIP : List Nat :=
  natToBytes 4 9 ++ natToBytes 2 0 ++ natToBytes 2 24 ++ natToBytes 8 4660 ++
    List.replicate 8 0

/-- C7 counterexample: decoding `bufIP` yields a `SampleRecord` whose header
size field is 24, but re-encoding it produces only 16 bytes, so
`BinaryFormat().size() ≠ size()`. -/
theorem binaryFormat_length_eq_size_counterexample :
    (encodeRecord (decodeRecord attrIP bufIP)).length ≠ (decodeRecord attrIP bufIP).size := by
  decide

/-! ## C9: unknown record types round-trip byte for byte -/

def PerfRecord.isUnknown : PerfRecord → Bool
  | .unknown .. => true
  | _ => false

theorem readHeader_take_eq (b : List Nat) (n : Nat) (h8 : 8 ≤ n) :
    (readHeader (b.take n)).1 = (readHeader b).1 := by
  simp only [readHeader, rdN]
  have e1 : (b.take n).take 4 = b.take 4 := by
    rw [List.take_take]
    congr 1
    omega
  have e2 : (b.take n).drop 4 = (b.drop 4).take (n - 4) := List.drop_take ..
  have e3 : ((b.drop 4).take (n - 4)).take 2 = (b.drop 4).take 2 := by
    rw [List.take_take]
    congr 1
    omega
  have e4 : ((b.drop 4).take (n - 4)).drop 2 = ((b.drop 4).drop 2).take (n - 4 - 2) :=
    List.drop_take ..
  have e5 : (((b.drop 4).drop 2).take (n - 4 - 2)).take 2 = ((b.drop 4).drop 2).take 2 := by
    rw [List.take_take]
    congr 1
    omega
  have e6 : ((b.drop 6).take (n - 4 - 2)).take 2 = (b.drop 6).take 2 := by
    rw [List.take_take]
    congr 1
    omega
  simp [e1, e2, e3, e4, e5, e6, List.drop_drop]

theorem toBytes_readHeader (b : List Nat) (h8 : 8 ≤ b.length)
    (hb : ∀ x ∈ b, x < 256) :
    ((readHeader b).1).toBytes = b.take 8 := by
  have l4 : (b.take 4).length = 4 := by
    simp [List.length_take]
    omega
  have l2 : ((b.drop 4).take 2).length = 2 := by
    simp [List.length_take, List.length_drop]
    omega
  have l2' : (((b.drop 4).drop 2).take 2).length = 2 := by
    simp [List.length_take, List.length_drop]
    omega
  have m4 : natToBytes 4 (bytesToNat (b.take 4)) = b.take 4 := by
    have h := natToBytes_bytesToNat (b.take 4) (fun x hx => hb x (List.take_subset _ _ hx))
    rw [l4] at h
    exact h
  have m2 : natToBytes 2 (bytesToNat ((b.drop 4).take 2)) = (b.drop 4).take 2 := by
    have h := natToBytes_bytesToNat ((b.drop 4).take 2)
      (fun x hx => hb x (List.drop_subset _ _ (List.take_subset _ _ hx)))
    rw [l2] at h
    exact h
  have m2' : natToBytes 2 (bytesToNat (((b.drop 4).drop 2).take 2)) =
      ((b.drop 4).drop 2).take 2 := by
    have h := natToBytes_bytesToNat (((b.drop 4).drop 2).take 2)
      (fun x hx => hb x (List.drop_subset _ _ (List.drop_subset _ _ (List.take_subset _ _ hx))))
    rw [l2'] at h
    exact h
  have split1 : b.take 8 = b.take 4 ++ (b.drop 4).take 4 := by
    have := List.take_add b 4 4
    simpa using this
  have split2 : (b.drop 4).take 4 = (b.drop 4).take 2 ++ ((b.drop 4).drop 2).take 2 := by
    have := List.take_add (b.drop 4) 2 2
    simpa using this
  simp only [readHeader, rdN, RecordHeader.toBytes, m4, m2, m2']
  rw [split1, split2, List.append_assoc]

/-- C9: for every byte buffer whose header type is not one of the cases of
`ReadRecordFromBuffer`, decoding yields an `UnknownRecord`, and re-encoding
that record reproduces the first `header.size` bytes of the buffer exactly. -/
theorem unknown_record_roundtrip (attr : EventAttr) (b : List Nat)
    (hbytes : ∀ x ∈ b, x < 256)
    (htype : (readHeader b).1.type ∉ ([PERF_RECORD_MMAP, PERF_RECORD_MMAP2, PERF_RECORD_COMM,
      PERF_RECORD_EXIT, PERF_RECORD_FORK, PERF_RECORD_LOST, PERF_RECORD_SAMPLE,
      PERF_RECORD_TRACING_DATA, SIMPLE_PERF_RECORD_KERNEL_SYMBOL, SIMPLE_PERF_RECORD_DSO,
      SIMPLE_PERF_RECORD_SYMBOL] : List Nat))
    (hsz8 : 8 ≤ (readHeader b).1.size) (hszle : (readHeader b).1.size ≤ b.length) :
    (readRecordFromBuffer attr b).isUnknown = true ∧
    encodeRecord (readRecordFromBuffer attr b) = b.take (readHeader b).1.size := by
  simp only [List.mem_cons, List.mem_singleton, not_or] at htype
  obtain ⟨hn1, hn2, hn3, hn4, hn5, hn6, hn7, hn8, hn9, hn10, hn11⟩ := htype
  have hb8 : 8 ≤ b.length := le_trans hsz8 hszle
  have hhdr : (readHeader (b.take (readHeader b).1.size)).1 = (readHeader b).1 :=
    readHeader_take_eq b _ hsz8
  have hrr : readRecordFromBuffer attr b
      = .unknown (readHeader b).1 ((b.take (readHeader b).1.size).drop 8) := by
    simp [readRecordFromBuffer, hn1, hn2, hn3, hn4, hn5, hn6, hn7, hn8, hn9, hn10, hn11,
      unknownOfBytes, hhdr, headerSize]
  refine ⟨by simp [hrr, PerfRecord.isUnknown], ?_⟩
  rw [hrr]
  have hlen : ((readHeader b).1.toBytes ++ (b.take (readHeader b).1.size).drop 8).length
      = (readHeader b).1.size := by
    simp [length_toBytes, List.length_drop, List.length_take]
    omega
  have htb : (readHeader b).1.toBytes = (b.take (readHeader b).1.size).take 8 := by
    rw [toBytes_readHeader b hb8 hbytes, List.take_take]
    congr 1
    omega
  simp only [encodeRecord, PerfRecord.size, PerfRecord.header, recordContent]
  rw [padTo_eq_self _ _ hlen, htb, List.take_append_drop]

/-- Witness for `unknown_record_roundtrip`: a 16-byte buffer with type 5
(`PERF_RECORD_THROTTLE`, not handled by the switch). -/
def bufThrottle : List Nat :=
  natToBytes 4 5 ++ natToBytes 2 0 ++ natToBytes 2 16 ++ natToBytes 8 77

theorem unknown_record_roundtrip_witness :
    (∀ x ∈ bufThrottle, x < 256) ∧
    (readRecordFromBuffer attrW bufThrottle).isUnknown = true ∧
    encodeRecord (readRecordFromBuffer attrW bufThrottle)
      = bufThrottle.take (readHeader bufThrottle).1.size :=
  ⟨by decide,
    (unknown_record_roundtrip attrW bufThrottle (by decide) (by decide) (by decide)
      (by decide)).1,
    (unknown_record_roundtrip attrW bufThrottle (by decide) (by decide) (by decide)
      (by decide)).2⟩

/-! ## RecordCache (record.cpp:889-967)

`std::priority_queue` with `RecordComparator` pops, at each step, the
element that no other queued element `IsHappensBefore` (sequence numbers
are distinct in every reachable cache, making `IsHappensBefore` a strict
total order, so that element is unique).  The queue is modelled as the
list of its elements; `hbMin` selects the top. -/

/-- `Record::type()`. -/
def PerfRecord.type (r : PerfRecord) : Nat := r.header.type

/-- `Record::Timestamp()`: `sample_id.time_data.time`, overridden by
`SampleRecord::Timestamp()` to `time_data.time`; record kinds without a
`sample_id` member keep the zeroed default 0. -/
def PerfRecord.timestamp : PerfRecord → Nat
  | .mmap _ _ _ sid => sid.time
  | .mmap2 _ _ _ sid => sid.time
  | .comm _ _ _ sid => sid.time
  | .exitOrFork _ _ sid => sid.time
  | .lost _ _ _ sid => sid.time
  | .sample _ s => s.time
  | _ => 0

structure RecordWithSeq where
  seq : Nat
  record : PerfRecord
  deriving DecidableEq

/-- `RecordCache::RecordWithSeq::IsHappensBefore` (record.cpp:889-907). -/
def RecordWithSeq.isHappensBefore (a b : RecordWithSeq) : Bool :=
  let is_sample := a.record.type = PERF_RECORD_SAMPLE
  let is_other_sample := b.record.type = PERF_RECORD_SAMPLE
  let time := a.record.timestamp
  let other_time := b.record.timestamp
  if time ≠ other_time then decide (time < other_time)
  else if is_sample ≠ is_other_sample then (if is_sample then false else true)
  else decide (a.seq < b.seq)

/-- `RecordCache` state: the fields of the C++ class, with the
`std::priority_queue` kept as the plain list of queued elements. -/
structure RecordCache where
  has_timestamp : Bool
  min_cache_size : Nat
  min_time_diff_in_ns : Nat
  last_time : Nat
  cur_seq : Nat
  queue : List RecordWithSeq
  deriving DecidableEq

/-- The `RecordCache` constructor (record.cpp:914-921). -/
def RecordCache.init (has_timestamp : Bool) (min_cache_size min_time_diff_in_ns : Nat) :
    RecordCache :=
  { has_timestamp := has_timestamp, min_cache_size := min_cache_size,
    min_time_diff_in_ns := min_time_diff_in_ns, last_time := 0, cur_seq := 0, queue := [] }

/-- The element of `x :: xs` that no other element `IsHappensBefore`: the
`top()` of the priority queue. -/
def hbMin (x : RecordWithSeq) : List RecordWithSeq → RecordWithSeq
  | [] => x
  | y :: ys => hbMin (if y.isHappensBefore x then y else x) ys

/-- `queue_.top()` (as an option, to cover the empty queue). -/
def RecordCache.topRec (c : RecordCache) : Option RecordWithSeq :=
  match c.queue with
  | [] => none
  | x :: xs => some (hbMin x xs)

/-- `RecordCache::Push(std::unique_ptr<Record>)` (record.cpp:925-930). -/
def RecordCache.push (c : RecordCache) (r : PerfRecord) : RecordCache :=
  { c with
    last_time := if c.has_timestamp then max c.last_time r.timestamp else c.last_time,
    queue := c.queue ++ [⟨c.cur_seq, r⟩],
    cur_seq := c.cur_seq + 1 }

def RecordCache.pushAll (c : RecordCache) (rs : List PerfRecord) : RecordCache :=
  rs.foldl RecordCache.push c

/-- `RecordCache::Pop` (record.cpp:938-950).  The timestamp guard
`r->Timestamp() + min_time_diff_in_ns_ > last_time_` is computed in
`uint64_t`, hence the `% 2 ^ 64`.  (With `min_cache_size_ = 0` and an
empty queue the C++ would call `queue_.top()` on an empty queue —
undefined behaviour; the model returns null there.) -/
def RecordCache.pop (c : RecordCache) : Option PerfRecord × RecordCache :=
  if c.queue.length < c.min_cache_size then (none, c)
  else
    match c.queue with
    | [] => (none, c)
    | x :: xs =>
      if c.has_timestamp &&
          decide (((hbMin x xs).record.timestamp + c.min_time_diff_in_ns) % 2 ^ 64
            > c.last_time) then
        (none, c)
      else (some (hbMin x xs).record, { c with queue := (x :: xs).erase (hbMin x xs) })

theorem hb_iff (a b : RecordWithSeq) :
    a.isHappensBefore b = true ↔
      (a.record.timestamp < b.record.timestamp ∨
        (a.record.timestamp = b.record.timestamp ∧
          ((¬ a.record.type = PERF_RECORD_SAMPLE ∧ b.record.type = PERF_RECORD_SAMPLE) ∨
            ((a.record.type = PERF_RECORD_SAMPLE ↔ b.record.type = PERF_RECORD_SAMPLE) ∧
              a.seq < b.seq)))) := by
  unfold RecordWithSeq.isHappensBefore
  by_cases ht : a.record.timestamp = b.record.timestamp <;>
  by_cases hsa : a.record.type = PERF_RECORD_SAMPLE <;>
  by_cases hsb : b.record.type = PERF_RECORD_SAMPLE <;>
  simp [ht, hsa, hsb]

theorem hb_irrefl (a : RecordWithSeq) : a.isHappensBefore a = false := by
  rw [← Bool.not_eq_true, hb_iff]
  simp

theorem hb_trans (a b c : RecordWithSeq) (h1 : a.isHappensBefore b = true)
    (h2 : b.isHappensBefore c = true) : a.isHappensBefore c = true := by
  rw [hb_iff] at *
  by_cases hsa : a.record.type = PERF_RECORD_SAMPLE <;>
  by_cases hsb : b.record.type = PERF_RECORD_SAMPLE <;>
  by_cases hsc : c.record.type = PERF_RECORD_SAMPLE <;>
  simp [hsa, hsb, hsc] at * <;> omega

theorem hb_total (a b : RecordWithSeq) (hseq : a.seq ≠ b.seq) :
    a.isHappensBefore b = true ∨ b.isHappensBefore a = true := by
  rw [hb_iff, hb_iff]
  by_cases hsa : a.record.type = PERF_RECORD_SAMPLE <;>
  by_cases hsb : b.record.type = PERF_RECORD_SAMPLE <;>
  simp [hsa, hsb] <;> omega

theorem hb_asymm (a b : RecordWithSeq) (h : a.isHappensBefore b = true) :
    b.isHappensBefore a = false := by
  rw [← Bool.not_eq_true, hb_iff]
  rw [hb_iff] at h
  by_cases hsa : a.record.type = PERF_RECORD_SAMPLE <;>
  by_cases hsb : b.record.type = PERF_RECORD_SAMPLE <;>
  simp [hsa, hsb] at * <;> omega

theorem hbMin_mem (x : RecordWithSeq) (xs : List RecordWithSeq) :
    hbMin x xs ∈ x :: xs := by
  induction xs generalizing x with
  | nil => simp [hbMin]
  | cons y ys ih =>
    have h := ih (if y.isHappensBefore x then y else x)
    simp only [hbMin]
    by_cases hc : y.isHappensBefore x = true <;>
      simp [hc] at h ⊢ <;> tauto

/-- The fold result either is the running candidate or happens before it. -/
theorem hbMin_hb_head (x : RecordWithSeq) (xs : List RecordWithSeq) :
    hbMin x xs = x ∨ (hbMin x xs).isHappensBefore x = true := by
  induction xs generalizing x with
  | nil => exact Or.inl rfl
  | cons z zs ih =>
    simp only [hbMin]
    by_cases hc : z.isHappensBefore x = true
    · simp only [hc, if_true]
      rcases ih z with h | h
      · rw [h]
        exact Or.inr hc
      · exact Or.inr (hb_trans _ _ _ h hc)
    · simp only [hc, if_false]
      exact ih x

/-- No element of the queue happens before the selected top. -/
theorem hbMin_least (x : RecordWithSeq) (xs : List RecordWithSeq) :
    ∀ y ∈ x :: xs, y.isHappensBefore (hbMin x xs) = false := by
  induction xs generalizing x with
  | nil =>
    intro y hy
    simp at hy
    simp [hy, hbMin, hb_irrefl]
  | cons z zs ih =>
    intro y hy
    simp only [hbMin]
    have hstep : ∀ d : RecordWithSeq,
        d.isHappensBefore (if z.isHappensBefore x then z else x) = false →
        d.isHappensBefore (hbMin (if z.isHappensBefore x then z else x) zs) = false := by
      intro d hd
      rcases hbMin_hb_head (if z.isHappensBefore x then z else x) zs with he | he
      · rw [he]
        exact hd
      · rw [← Bool.not_eq_true]
        intro hcon
        have hcc := hb_trans _ _ _ hcon he
        rw [hcc] at hd
        cases hd
    by_cases hyx : y ∈ (if z.isHappensBefore x then z else x) :: zs
    · exact ih _ y hyx
    · have hy2 : y = x ∨ y = z := by
        rcases List.mem_cons.mp hy with h | h
        · exact Or.inl h
        · rcases List.mem_cons.mp h with h | h
          · exact Or.inr h
          · exact absurd (List.mem_cons_of_mem _ h) hyx
      apply hstep
      by_cases hc : z.isHappensBefore x = true
      · rcases hy2 with he | he
        · rw [if_pos hc, he]
          exact hb_asymm _ _ hc
        · exact absurd (by rw [if_pos hc, ← he]; exact List.mem_cons_self _ _) hyx
      · rcases hy2 with he | he
        · exact absurd (by rw [if_neg hc, ← he]; exact List.mem_cons_self _ _) hyx
        · rw [if_neg hc, he]
          simpa using hc

theorem erase_hbMin_length (x : RecordWithSeq) (xs : List RecordWithSeq) :
    ((x :: xs).erase (hbMin x xs)).length < (x :: xs).length := by
  have h := List.length_erase_of_mem (hbMin_mem x xs)
  simp only [List.length_cons] at h ⊢
  omega

/-- Repeated `top()`/`pop()` of the queue until empty — the loop of
`RecordCache::PopAll` (record.cpp:952-959). -/
def drainAll : List RecordWithSeq → List RecordWithSeq
  | [] => []
  | x :: xs => hbMin x xs :: drainAll ((x :: xs).erase (hbMin x xs))
termination_by l => l.length
decreasing_by
  exact erase_hbMin_length _ _

/-- `RecordCache::PopAll`. -/
def RecordCache.popAll (c : RecordCache) : List PerfRecord :=
  (drainAll c.queue).map RecordWithSeq.record

/-- A sequence of `Pop` calls, collecting the records returned. -/
def RecordCache.popN : Nat → RecordCache → List PerfRecord × RecordCache
  | 0, c => ([], c)
  | n + 1, c =>
    let p := c.pop
    let q := RecordCache.popN n p.2
    (p.1.toList ++ q.1, q.2)

theorem drainAll_mem (l : List RecordWithSeq) : ∀ y ∈ drainAll l, y ∈ l := by
  match l with
  | [] => simp [drainAll]
  | x :: xs =>
    intro y hy
    rw [drainAll] at hy
    rcases List.mem_cons.mp hy with rfl | hy2
    · exact hbMin_mem x xs
    · have h := drainAll_mem ((x :: xs).erase (hbMin x xs)) y hy2
      exact List.erase_subset _ _ h
termination_by l.length
decreasing_by
  exact erase_hbMin_length _ _

/-- The drained sequence is sorted by `IsHappensBefore` whenever sequence
numbers are distinct. -/
theorem drainAll_sorted (l : List RecordWithSeq)
    (hnd : (l.map RecordWithSeq.seq).Nodup) :
    List.Chain' (fun a b => a.isHappensBefore b = true) (drainAll l) := by
  match l with
  | [] => simp [drainAll]
  | x :: xs =>
    rw [drainAll]
    have hmem := hbMin_mem x xs
    have herase : List.Sublist ((x :: xs).erase (hbMin x xs)) (x :: xs) :=
      List.erase_sublist _ _
    have hnd2 : (((x :: xs).erase (hbMin x xs)).map RecordWithSeq.seq).Nodup :=
      List.Nodup.sublist (List.Sublist.map _ herase) hnd
    have hrec := drainAll_sorted ((x :: xs).erase (hbMin x xs)) hnd2
    refine List.chain'_cons'.mpr ⟨?_, hrec⟩
    intro y hy
    have hymem : y ∈ (x :: xs).erase (hbMin x xs) :=
      drainAll_mem _ y (List.mem_of_mem_head? hy)
    have hndel : (x :: xs).Nodup := List.Nodup.of_map _ hnd
    have hym := (List.Nodup.mem_erase_iff hndel).mp hymem
    have hseq : (hbMin x xs).seq ≠ y.seq := by
      intro he
      exact hym.1 (List.inj_on_of_nodup_map hnd hym.2 hmem he.symm)
    have hnle := hbMin_least x xs y hym.2
    rcases hb_total (hbMin x xs) y hseq with h | h
    · exact h
    · rw [h] at hnle
      cases hnle
termination_by l.length
decreasing_by
  exact erase_hbMin_length _ _

/-- `Pop` either returns null leaving the cache unchanged, or removes and
returns the top. -/
theorem pop_cases (c : RecordCache) :
    c.pop = (none, c) ∨
      ∃ x xs, c.queue = x :: xs ∧
        c.pop = (some (hbMin x xs).record,
          { c with queue := (x :: xs).erase (hbMin x xs) }) := by
  unfold RecordCache.pop
  split
  · exact Or.inl rfl
  · split
    · exact Or.inl rfl
    · rename_i x xs heq
      split
      · exact Or.inl rfl
      · exact Or.inr ⟨x, xs, heq, rfl⟩

/-- Pops followed by the final drain yield exactly the full drained
sequence, and popping only removes queued elements. -/
theorem popN_drain (n : Nat) (c : RecordCache) :
    (c.popN n).1 ++ ((c.popN n).2).popAll = c.popAll ∧
      List.Sublist ((c.popN n).2).queue c.queue := by
  induction n generalizing c with
  | zero => simp [RecordCache.popN]
  | succ n ih =>
    rcases pop_cases c with h | ⟨x, xs, hq, h⟩
    · simp only [RecordCache.popN, h, Option.toList_none, List.nil_append]
      exact ih c
    · obtain ⟨ih1, ih2⟩ := ih { c with queue := (x :: xs).erase (hbMin x xs) }
      constructor
      · simp only [RecordCache.popN, h, Option.toList_some, List.singleton_append]
        rw [List.cons_append, ih1]
        simp [RecordCache.popAll, hq, drainAll]
      · simp only [RecordCache.popN, h]
        refine List.Sublist.trans ih2 ?_
        rw [hq]
        exact List.erase_sublist _ _

/-- Pushing preserves: every queued sequence number is below `cur_seq`,
and sequence numbers are distinct. -/
theorem pushAll_seq_nodup (rs : List PerfRecord) (c : RecordCache)
    (hlt : ∀ w ∈ c.queue, w.seq < c.cur_seq)
    (hnd : (c.queue.map RecordWithSeq.seq).Nodup) :
    (∀ w ∈ (c.pushAll rs).queue, w.seq < (c.pushAll rs).cur_seq) ∧
      ((c.pushAll rs).queue.map RecordWithSeq.seq).Nodup := by
  induction rs generalizing c with
  | nil => exact ⟨hlt, hnd⟩
  | cons r rs ih =>
    simp only [RecordCache.pushAll, List.foldl_cons]
    apply ih
    · intro w hw
      simp only [RecordCache.push, List.mem_append, List.mem_singleton] at hw
      rcases hw with hw | hw
      · exact Nat.lt_succ_of_lt (hlt w hw)
      · simp [RecordCache.push, hw]
    · simp only [RecordCache.push, List.map_append, List.map_cons, List.map_nil]
      rw [List.nodup_append]
      refine ⟨hnd, List.nodup_singleton _, ?_⟩
      intro a ha hb
      simp only [List.mem_map] at ha
      obtain ⟨w, hw, rfl⟩ := ha
      simp only [List.mem_singleton] at hb
      have hl := hlt w hw
      omega

/-- The order in which the cache emits records, at the record level:
non-decreasing timestamps, and at equal timestamps a sample record never
precedes a non-sample record. -/
def emittedBefore (a b : PerfRecord) : Prop :=
  a.timestamp ≤ b.timestamp ∧
    (a.timestamp = b.timestamp →
      b.type = PERF_RECORD_SAMPLE ∨ ¬ a.type = PERF_RECORD_SAMPLE)

/-- C2: for every record stream pushed into a `RecordCache` built with
`has_timestamp = true`, the records returned by any number of `Pop` calls
followed by the final `PopAll` are non-decreasing in `Timestamp()`, and at
equal timestamps a non-sample record is emitted before a sample record;
moreover the emitted tagged sequence is sorted by the full
`IsHappensBefore` order, whose final tiebreak is the arrival sequence
number, so records equal in both respects emerge in arrival order. -/
theorem recordCache_drain_sorted (mcs diff n : Nat) (rs : List PerfRecord) :
    List.Chain' emittedBefore
      ((((RecordCache.init true mcs diff).pushAll rs).popN n).1 ++
        ((((RecordCache.init true mcs diff).pushAll rs).popN n).2).popAll) ∧
    List.Chain' (fun a b => a.isHappensBefore b = true)
      (drainAll (((RecordCache.init true mcs diff).pushAll rs).queue)) := by
  have hnd := (pushAll_seq_nodup rs (RecordCache.init true mcs diff)
    (by simp [RecordCache.init]) (by simp [RecordCache.init])).2
  have hchain := drainAll_sorted _ hnd
  have hout := (popN_drain n ((RecordCache.init true mcs diff).pushAll rs)).1
  constructor
  · rw [hout]
    unfold RecordCache.popAll
    rw [List.chain'_map]
    refine List.Chain'.imp ?_ hchain
    intro a b hab
    rw [hb_iff] at hab
    constructor
    · rcases hab with h | ⟨he, _⟩
      · exact Nat.le_of_lt h
      · exact Nat.le_of_eq he
    · intro he
      rcases hab with h | ⟨_, h2⟩
      · omega
      · rcases h2 with ⟨_, hb⟩ | ⟨hiff, _⟩
        · exact Or.inl hb
        · by_cases ha : a.record.type = PERF_RECORD_SAMPLE
          · exact Or.inl (hiff.mp ha)
          · exact Or.inr ha
  · exact hchain

def recC2a : PerfRecord := .lost ⟨2, 0, 48⟩ 0 0 { time := 5 }

def recC2b : PerfRecord := .lost ⟨2, 0, 48⟩ 0 0 { time := 3 }

theorem recordCache_drain_sorted_witness :
    List.Chain' emittedBefore
      ((((RecordCache.init true 0 0).pushAll [recC2a, recC2b]).popN 1).1 ++
        ((((RecordCache.init true 0 0).pushAll [recC2a, recC2b]).popN 1).2).popAll) ∧
    List.Chain' (fun a b => a.isHappensBefore b = true)
      (drainAll (((RecordCache.init true 0 0).pushAll [recC2a, recC2b]).queue)) :=
  recordCache_drain_sorted 0 0 1 [recC2a, recC2b]

/-- C3: `Pop` returns a record only when the cache holds at least
`min_cache_size` records and, when `has_timestamp` is set, the top's
timestamp passes the time guard; whenever the depth is short or the guard
trips, `Pop` returns null and leaves the cache unchanged.  The guard
`Timestamp() + min_time_diff_in_ns_ > last_time_` is computed in
`uint64_t`; in the overflow-free range it is exactly the specified
`timestamp ≤ last_time - min_time_diff_in_ns` (over ℤ), and `last_time_`
is the running maximum of the pushed timestamps. -/
theorem recordCache_pop_spec (c : RecordCache) :
    (∀ r c', c.pop = (some r, c') →
      c.min_cache_size ≤ c.queue.length ∧
      (∃ t, c.topRec = some t ∧ r = t.record) ∧
      (c.has_timestamp = true → ∀ t, c.topRec = some t →
        (t.record.timestamp + c.min_time_diff_in_ns) % 2 ^ 64 ≤ c.last_time)) ∧
    ((c.queue.length < c.min_cache_size ∨
        (c.has_timestamp = true ∧ ∃ t, c.topRec = some t ∧
          c.last_time < (t.record.timestamp + c.min_time_diff_in_ns) % 2 ^ 64)) →
      c.pop = (none, c)) ∧
    (∀ ts : Nat, ts + c.min_time_diff_in_ns < 2 ^ 64 →
      ((ts + c.min_time_diff_in_ns) % 2 ^ 64 ≤ c.last_time ↔
        (ts : ℤ) ≤ (c.last_time : ℤ) - (c.min_time_diff_in_ns : ℤ))) ∧
    (∀ r, (c.push r).last_time =
      if c.has_timestamp then max c.last_time r.timestamp else c.last_time) := by
  refine ⟨?_, ?_, ?_, fun r => rfl⟩
  · intro r c' h
    unfold RecordCache.pop at h
    split at h
    · simp at h
    · rename_i hlen
      split at h
      · simp at h
      · rename_i x xs heq
        split at h
        · simp at h
        · rename_i hg
          obtain ⟨hr, _⟩ := Prod.mk.injEq _ _ _ _ ▸ h
          refine ⟨by rw [heq] at hlen ⊢; omega, ?_, ?_⟩
          · exact ⟨hbMin x xs, by simp [RecordCache.topRec, heq], by
              simp at hr
              exact hr.symm⟩
          · intro hts t htop
            simp only [RecordCache.topRec, heq] at htop
            obtain rfl : hbMin x xs = t := by injection htop
            rw [hts] at hg
            simp at hg
            exact hg
  · intro hcond
    by_cases hlen : c.queue.length < c.min_cache_size
    · unfold RecordCache.pop
      rw [if_pos hlen]
    · rcases hcond with h | ⟨hts, t, htop, hguard⟩
      · exact absurd h hlen
      · rcases hq : c.queue with _ | ⟨x, xs⟩
        · unfold RecordCache.pop
          rw [if_neg hlen]
          simp only [hq]
        · simp only [RecordCache.topRec, hq] at htop
          obtain rfl : hbMin x xs = t := by injection htop
          unfold RecordCache.pop
          rw [if_neg hlen]
          simp only [hq]
          rw [if_pos (by rw [hts]; simpa using hguard)]
  · intro ts hlt
    rw [Nat.mod_eq_of_lt hlt]
    omega

theorem recordCache_pop_spec_witness :
    (RecordCache.init true 2 0).pop = (none, RecordCache.init true 2 0) :=
  (recordCache_pop_spec (RecordCache.init true 2 0)).2.1 (Or.inl (by decide))

/-! ## Call-chain tree (callchain.cpp)

`CallChainRoot::AddCallChain` walks/extends a tree of `CallChainNode`s.
The C++ mutates the selected node in place; the model rebuilds the spine
functionally.  `CHECK_GT(match_count, 0u)` aborting the process is
modelled as `none`. -/

/-- A `SampleEntry*` as far as callchain.cpp observes it: only
`sample->symbol->name` is ever read (by `MatchSample`). -/
structure SampleEntry where
  symbol_name : List Nat
  deriving DecidableEq

/-- `MatchSample` (callchain.cpp:23-25). -/
def matchSample (s1 s2 : SampleEntry) : Bool :=
  s1.symbol_name = s2.symbol_name

/-- `MatchSamples(samples1, samples2, samples2_start)` (callchain.cpp:27-36)
counts pairwise matches until the first mismatch or either end; callers
pass `samples2.drop samples2_start` for the indexed traversal. -/
def matchSamples : List SampleEntry → List SampleEntry → Nat
  | a :: as, b :: bs => if matchSample a b then matchSamples as bs + 1 else 0
  | _, _ => 0

/-- `CallChainNode`: chain of samples, period, children_period, children. -/
inductive CallChainNode where
  | mk (chain : List SampleEntry) (period : Nat) (children_period : Nat)
      (children : List CallChainNode)

def CallChainNode.chain : CallChainNode → List SampleEntry
  | .mk c _ _ _ => c

def CallChainNode.period : CallChainNode → Nat
  | .mk _ p _ _ => p

def CallChainNode.children_period : CallChainNode → Nat
  | .mk _ _ cp _ => cp

def CallChainNode.children : CallChainNode → List CallChainNode
  | .mk _ _ _ cs => cs

@[simp]
theorem CallChainNode.chain_mk (c : List SampleEntry) (a b : Nat)
    (cs : List CallChainNode) : (CallChainNode.mk c a b cs).chain = c := rfl

@[simp]
theorem CallChainNode.period_mk (c : List SampleEntry) (a b : Nat)
    (cs : List CallChainNode) : (CallChainNode.mk c a b cs).period = a := rfl

@[simp]
theorem CallChainNode.children_period_mk (c : List SampleEntry) (a b : Nat)
    (cs : List CallChainNode) : (CallChainNode.mk c a b cs).children_period = b := rfl

@[simp]
theorem CallChainNode.children_mk (c : List SampleEntry) (a b : Nat)
    (cs : List CallChainNode) : (CallChainNode.mk c a b cs).children = cs := rfl

/-- `n->period + n->children_period`, the weight a node contributes to its
parent's `children_period`. -/
def nodeWeight (n : CallChainNode) : Nat := n.period + n.children_period

/-- `AllocateNode(chain, chain_start, period, children_period)`
(callchain.cpp:48-58); callers pass the suffix `chain.drop chain_start`. -/
def allocateNode (chain : List SampleEntry) (period children_period : Nat) :
    CallChainNode :=
  .mk chain period children_period []

/-- `SplitNode(parent, parent_length)` (callchain.cpp:60-69): the tail of
the chain moves into a fresh single child that inherits period,
children_period and children; the parent keeps the chain head with
period 0 and `children_period = child->period + child->children_period`. -/
def splitNode (parent : CallChainNode) (parent_length : Nat) : CallChainNode :=
  .mk (parent.chain.take parent_length) 0
    (parent.period + parent.children_period)
    [.mk (parent.chain.drop parent_length) parent.period parent.children_period
      parent.children]

/-- `p->period += period` (callchain.cpp:90). -/
def bumpPeriod (p : CallChainNode) (period : Nat) : CallChainNode :=
  .mk p.chain (p.period + period) p.children_period p.children

/-- `p->children_period += period` (callchain.cpp:93). -/
def bumpChildrenPeriod (p : CallChainNode) (period : Nat) : CallChainNode :=
  .mk p.chain p.period (p.children_period + period) p.children

/-- `p->children.push_back(new_node)` (callchain.cpp:102). -/
def appendChild (p : CallChainNode) (c : CallChainNode) : CallChainNode :=
  .mk p.chain p.period p.children_period (p.children ++ [c])

/-- Node with its children replaced (in-place mutation of the child list). -/
def setChildren (p : CallChainNode) (cs : List CallChainNode) : CallChainNode :=
  .mk p.chain p.period p.children_period cs

/-- The test `MatchSample(node->chain.front(), sample)` used by
`SelectMatchingNode` (callchain.cpp:38-46), with `sample` the next
callchain element; `front()` of an empty chain is undefined behaviour in
the C++, never reached on the trees the program builds (C10). -/
def nodeMatchesFront (n : CallChainNode) (remaining : List SampleEntry) : Bool :=
  match n.chain.head?, remaining.head? with
  | some f, some s => matchSample f s
  | _, _ => false

theorem matchSamples_le_right (c r : List SampleEntry) : matchSamples c r ≤ r.length := by
  induction c generalizing r with
  | nil => cases r <;> simp [matchSamples]
  | cons a as ih =>
    cases r with
    | nil => simp [matchSamples]
    | cons b bs =>
      rw [matchSamples]
      split
      · have h := ih bs
        simp only [List.length_cons]
        omega
      · simp

theorem matchSamples_le_left (c r : List SampleEntry) : matchSamples c r ≤ c.length := by
  induction c generalizing r with
  | nil => cases r <;> simp [matchSamples]
  | cons a as ih =>
    cases r with
    | nil => simp [matchSamples]
    | cons b bs =>
      rw [matchSamples]
      split
      · have h := ih bs
        simp only [List.length_cons]
        omega
      · simp

/-! The loop of `CallChainRoot::AddCallChain` (callchain.cpp:79-104) from a
current node `p` and the remaining callchain suffix, mutually with the
child search (`SelectMatchingNode`, descend or append `AllocateNode`).
A failing `CHECK_GT(match_count, 0u)` is `none`. -/
mutual

def addToNode (p : CallChainNode) (remaining : List SampleEntry) (period : Nat) :
    Option CallChainNode :=
  if _hm0 : matchSamples p.chain remaining = 0 then none
  else if matchSamples p.chain remaining < p.chain.length then
    if (remaining.drop (matchSamples p.chain remaining)).isEmpty then
      some (bumpPeriod (splitNode p (matchSamples p.chain remaining)) period)
    else
      some (appendChild
        (bumpChildrenPeriod (splitNode p (matchSamples p.chain remaining)) period)
        (allocateNode (remaining.drop (matchSamples p.chain remaining)) period 0))
  else if (remaining.drop (matchSamples p.chain remaining)).isEmpty then
    some (bumpPeriod p period)
  else
    match addToChildren p.children
        (remaining.drop (matchSamples p.chain remaining)) period with
    | none => none
    | some cs => some (setChildren (bumpChildrenPeriod p period) cs)
termination_by (remaining.length, sizeOf p)
decreasing_by
  apply Prod.Lex.left
  have h2 := matchSamples_le_right p.chain remaining
  simp only [List.length_drop]
  omega

def addToChildren (nodes : List CallChainNode) (remaining : List SampleEntry)
    (period : Nat) : Option (List CallChainNode) :=
  match nodes with
  | [] => some [allocateNode remaining period 0]
  | n :: ns =>
    if nodeMatchesFront n remaining then
      match addToNode n remaining period with
      | none => none
      | some n2 => some (n2 :: ns)
    else
      match addToChildren ns remaining period with
      | none => none
      | some ns2 => some (n :: ns2)
termination_by (remaining.length, sizeOf nodes)
decreasing_by
  all_goals
    apply Prod.Lex.right
    try simp only [List.cons.sizeOf_spec]
    omega

end

/-- `CallChainRoot`: `children_period` plus the forest of children. -/
structure CallChainRoot where
  children_period : Nat
  children : List CallChainNode

/-- `CallChainRoot::AddCallChain(callchain, period)` (callchain.cpp:71-105). -/
def CallChainRoot.addCallChain (r : CallChainRoot) (callchain : List SampleEntry)
    (period : Nat) : Option CallChainRoot :=
  match addToChildren r.children callchain period with
  | none => none
  | some cs => some ⟨r.children_period + period, cs⟩

def CallChainRoot.empty : CallChainRoot := ⟨0, []⟩

def CallChainRoot.addAll : CallChainRoot → List (List SampleEntry × Nat) →
    Option CallChainRoot
  | r, [] => some r
  | r, a :: rest =>
    match r.addCallChain a.1 a.2 with
    | none => none
    | some r2 => r2.addAll rest

theorem sizeOf_mem_children {c : CallChainNode} {n : CallChainNode}
    (h : c ∈ n.children) : sizeOf c < sizeOf n := by
  obtain ⟨ch, p, cp, cs⟩ := n
  have h2 := List.sizeOf_lt_of_mem h
  simp only [CallChainNode.children_mk] at h2
  simp only [CallChainNode.mk.sizeOf_spec]
  omega

/-- The C5 invariant, nodewise: `children_period` is the sum over children
of `period + children_period`, recursively. -/
def nodeOk (n : CallChainNode) : Bool :=
  (n.children_period == (n.children.map nodeWeight).sum) &&
  n.children.attach.all fun c => nodeOk c.1
termination_by sizeOf n
decreasing_by
  exact sizeOf_mem_children c.2

/-- Every node in the subtree has a non-empty chain. -/
def neOk (n : CallChainNode) : Bool :=
  (!n.chain.isEmpty) && n.children.attach.all fun c => neOk c.1
termination_by sizeOf n
decreasing_by
  exact sizeOf_mem_children c.2

theorem nodeOk_iff (n : CallChainNode) :
    nodeOk n = true ↔
      (n.children_period = (n.children.map nodeWeight).sum ∧
        ∀ c ∈ n.children, nodeOk c = true) := by
  rw [nodeOk]
  simp [List.all_eq_true]

theorem neOk_iff (n : CallChainNode) :
    neOk n = true ↔ (n.chain ≠ [] ∧ ∀ c ∈ n.children, neOk c = true) := by
  rw [neOk]
  simp [List.all_eq_true, List.isEmpty_iff]

theorem nodeWeight_splitNode (p : CallChainNode) (k : Nat) :
    nodeWeight (splitNode p k) = nodeWeight p := by
  simp [nodeWeight, splitNode]

theorem nodeOk_splitNode (p : CallChainNode) (k : Nat) (hp : nodeOk p = true) :
    nodeOk (splitNode p k) = true := by
  rw [nodeOk_iff] at hp
  rw [nodeOk_iff]
  unfold splitNode
  constructor
  · simp [nodeWeight]
  · intro c hc
    simp only [CallChainNode.children_mk, List.mem_singleton] at hc
    subst hc
    rw [nodeOk_iff]
    simpa using hp

theorem neOk_splitNode (p : CallChainNode) (k : Nat) (hk0 : 0 < k)
    (hklen : k < p.chain.length) (hp : neOk p = true) :
    neOk (splitNode p k) = true := by
  rw [neOk_iff] at hp
  rw [neOk_iff]
  unfold splitNode
  constructor
  · simp only [CallChainNode.chain_mk]
    intro he
    have h2 : (p.chain.take k).length = 0 := by rw [he]; rfl
    rw [List.length_take] at h2
    omega
  · intro c hc
    simp only [CallChainNode.children_mk, List.mem_singleton] at hc
    subst hc
    rw [neOk_iff]
    simp only [CallChainNode.chain_mk, CallChainNode.children_mk]
    refine ⟨?_, hp.2⟩
    intro he
    have h2 : (p.chain.drop k).length = 0 := by rw [he]; rfl
    rw [List.length_drop] at h2
    omega

theorem sizeOf_children_lt (n : CallChainNode) : sizeOf n.children < sizeOf n := by
  obtain ⟨ch, a, b, cs⟩ := n
  simp only [CallChainNode.children_mk, CallChainNode.mk.sizeOf_spec]
  omega

/-- Preservation of the `children_period` invariant through one
`AddCallChain` descent, proved for both mutual functions at once by
strong induction on `remaining.length + sizeOf`. -/
theorem add_ok_aux (k : Nat) :
    (∀ p : CallChainNode, ∀ remaining : List SampleEntry, ∀ period : Nat,
      remaining.length + sizeOf p ≤ k → nodeOk p = true →
      ∀ p2, addToNode p remaining period = some p2 →
        nodeOk p2 = true ∧ nodeWeight p2 = nodeWeight p + period) ∧
    (∀ nodes : List CallChainNode, ∀ remaining : List SampleEntry, ∀ period : Nat,
      remaining.length + sizeOf nodes ≤ k → (∀ n ∈ nodes, nodeOk n = true) →
      ∀ ns2, addToChildren nodes remaining period = some ns2 →
        (∀ n ∈ ns2, nodeOk n = true) ∧
          (ns2.map nodeWeight).sum = (nodes.map nodeWeight).sum + period) := by
  induction k using Nat.strong_induction_on with
  | _ k ih =>
  constructor
  · intro p remaining period hk hp p2 h
    rw [addToNode] at h
    split at h
    · exact Option.noConfusion h
    · split at h
      · rename_i hm0 hlt
        split at h
        · injection h with h2
          subst h2
          have hsp := nodeOk_splitNode p (matchSamples p.chain remaining) hp
          rw [nodeOk_iff] at hsp ⊢
          constructor
          · constructor
            · simpa [bumpPeriod] using hsp.1
            · simpa [bumpPeriod] using hsp.2
          · have hw := nodeWeight_splitNode p (matchSamples p.chain remaining)
            simp only [nodeWeight, bumpPeriod, CallChainNode.period_mk,
              CallChainNode.children_period_mk] at *
            omega
        · injection h with h2
          subst h2
          have hsp := nodeOk_splitNode p (matchSamples p.chain remaining) hp
          rw [nodeOk_iff] at hsp
          have hw := nodeWeight_splitNode p (matchSamples p.chain remaining)
          constructor
          · rw [nodeOk_iff]
            constructor
            · simp only [appendChild, bumpChildrenPeriod, allocateNode,
                CallChainNode.children_period_mk, CallChainNode.children_mk,
                List.map_append, List.sum_append, List.map_cons, List.map_nil,
                List.sum_cons, List.sum_nil, nodeWeight, CallChainNode.period_mk]
              omega
            · intro c hc
              simp only [appendChild, bumpChildrenPeriod, allocateNode,
                CallChainNode.children_mk, List.mem_append, List.mem_singleton] at hc
              rcases hc with hc2 | hc2
              · exact hsp.2 c hc2
              · subst hc2
                rw [nodeOk_iff]
                simp [nodeWeight]
          · simp only [nodeWeight, appendChild, bumpChildrenPeriod,
              CallChainNode.period_mk, CallChainNode.children_period_mk] at *
            omega
      · rename_i hm0 hge
        split at h
        · injection h with h2
          subst h2
          rw [nodeOk_iff] at hp ⊢
          constructor
          · simpa [bumpPeriod] using hp
          · simp only [nodeWeight, bumpPeriod, CallChainNode.period_mk,
              CallChainNode.children_period_mk]
            omega
        · split at h
          · exact Option.noConfusion h
          · rename_i cs2 hcs2
            injection h with h2
            subst h2
            rw [nodeOk_iff] at hp
            have hmr := matchSamples_le_right p.chain remaining
            have hsc := sizeOf_children_lt p
            have hlt2 : (remaining.drop (matchSamples p.chain remaining)).length
                + sizeOf p.children < k := by
              rw [List.length_drop]
              omega
            obtain ⟨hall, hsum⟩ := (ih _ hlt2).2 p.children
              (remaining.drop (matchSamples p.chain remaining)) period le_rfl
              hp.2 cs2 hcs2
            constructor
            · rw [nodeOk_iff]
              constructor
              · simp only [setChildren, bumpChildrenPeriod,
                  CallChainNode.children_period_mk, CallChainNode.children_mk]
                omega
              · intro c hc
                simp only [setChildren, bumpChildrenPeriod,
                  CallChainNode.children_mk] at hc
                exact hall c hc
            · simp only [nodeWeight, setChildren, bumpChildrenPeriod,
                CallChainNode.period_mk, CallChainNode.children_period_mk]
              omega
  · intro nodes remaining period hk hp ns2 h
    rcases nodes with _ | ⟨n, ns⟩
    · rw [addToChildren] at h
      injection h with h2
      subst h2
      constructor
      · intro m hm
        simp only [List.mem_singleton] at hm
        subst hm
        rw [nodeOk_iff]
        simp [allocateNode]
      · simp [allocateNode, nodeWeight]
    · rw [addToChildren] at h
      have hsz : sizeOf n < sizeOf (n :: ns) ∧ sizeOf ns < sizeOf (n :: ns) := by
        simp only [List.cons.sizeOf_spec]
        omega
      split at h
      · split at h
        · exact Option.noConfusion h
        · rename_i n2 hn2
          injection h with h2
          subst h2
          obtain ⟨hok, hw⟩ := (ih (remaining.length + sizeOf n) (by omega)).1
            n remaining period le_rfl (hp n (by simp)) n2 hn2
          constructor
          · intro m hm
            rcases List.mem_cons.mp hm with rfl | hm2
            · exact hok
            · exact hp m (List.mem_cons_of_mem _ hm2)
          · simp only [List.map_cons, List.sum_cons]
            omega
      · split at h
        · exact Option.noConfusion h
        · rename_i ns2' hns2
          injection h with h2
          subst h2
          obtain ⟨hall, hsum⟩ := (ih (remaining.length + sizeOf ns) (by omega)).2
            ns remaining period le_rfl
            (fun m hm => hp m (List.mem_cons_of_mem _ hm)) ns2' hns2
          constructor
          · intro m hm
            rcases List.mem_cons.mp hm with rfl | hm2
            · exact hp m (by simp)
            · exact hall m hm2
          · simp only [List.map_cons, List.sum_cons]
            omega

theorem addToChildren_ok (nodes : List CallChainNode) (remaining : List SampleEntry)
    (period : Nat) (hp : ∀ n ∈ nodes, nodeOk n = true) :
    ∀ ns2, addToChildren nodes remaining period = some ns2 →
      (∀ n ∈ ns2, nodeOk n = true) ∧
        (ns2.map nodeWeight).sum = (nodes.map nodeWeight).sum + period :=
  (add_ok_aux (remaining.length + sizeOf nodes)).2 nodes remaining period le_rfl hp

/-- Totality and chain-nonemptiness of one `AddCallChain` descent: under
the match precondition the `CHECK` never fires. -/
theorem add_ne_aux (k : Nat) :
    (∀ p : CallChainNode, ∀ remaining : List SampleEntry, ∀ period : Nat,
      remaining.length + sizeOf p ≤ k → neOk p = true →
      nodeMatchesFront p remaining = true →
      ∃ p2, addToNode p remaining period = some p2 ∧ neOk p2 = true) ∧
    (∀ nodes : List CallChainNode, ∀ remaining : List SampleEntry, ∀ period : Nat,
      remaining.length + sizeOf nodes ≤ k → (∀ n ∈ nodes, neOk n = true) →
      remaining ≠ [] →
      ∃ ns2, addToChildren nodes remaining period = some ns2 ∧
        ∀ n ∈ ns2, neOk n = true) := by
  induction k using Nat.strong_induction_on with
  | _ k ih =>
  constructor
  · intro p remaining period hk hp hm
    have hmc : 0 < matchSamples p.chain remaining := by
      unfold nodeMatchesFront at hm
      rcases hch : p.chain with _ | ⟨f, fs⟩ <;>
        rcases hrem : remaining with _ | ⟨s, ss⟩ <;>
        rw [hch, hrem] at hm <;> simp only [List.head?] at hm
      · exact Bool.noConfusion hm
      · exact Bool.noConfusion hm
      · exact Bool.noConfusion hm
      · rw [matchSamples, if_pos hm]
        omega
    rw [addToNode]
    rw [dif_neg (by omega)]
    split
    · rename_i hlt
      have hsp := neOk_splitNode p (matchSamples p.chain remaining) hmc hlt hp
      rw [neOk_iff] at hsp
      split
      · refine ⟨_, rfl, ?_⟩
        rw [neOk_iff]
        simpa [bumpPeriod] using hsp
      · rename_i hne
        refine ⟨_, rfl, ?_⟩
        rw [neOk_iff]
        constructor
        · simpa [appendChild, bumpChildrenPeriod] using hsp.1
        · intro c hc
          simp only [appendChild, bumpChildrenPeriod, allocateNode,
            CallChainNode.children_mk, List.mem_append, List.mem_singleton] at hc
          rcases hc with hc2 | hc2
          · exact hsp.2 c hc2
          · subst hc2
            rw [neOk_iff]
            simp only [CallChainNode.chain_mk, CallChainNode.children_mk]
            refine ⟨?_, by simp⟩
            intro he
            rw [he] at hne
            simp at hne
    · split
      · refine ⟨_, rfl, ?_⟩
        rw [neOk_iff] at hp ⊢
        simpa [bumpPeriod] using hp
      · rename_i hge hne
        rw [neOk_iff] at hp
        have hmr := matchSamples_le_right p.chain remaining
        have hsc := sizeOf_children_lt p
        have hlt2 : (remaining.drop (matchSamples p.chain remaining)).length
            + sizeOf p.children < k := by
          rw [List.length_drop]
          omega
        obtain ⟨cs2, hcs2, hcs2ok⟩ := (ih _ hlt2).2 p.children
          (remaining.drop (matchSamples p.chain remaining)) period le_rfl hp.2
          (by
            intro he
            rw [he] at hne
            simp at hne)
        rw [hcs2]
        refine ⟨_, rfl, ?_⟩
        rw [neOk_iff]
        simp only [setChildren, bumpChildrenPeriod, CallChainNode.chain_mk,
          CallChainNode.children_mk]
        exact ⟨hp.1, hcs2ok⟩
  · intro nodes remaining period hk hp hrem
    rcases nodes with _ | ⟨n, ns⟩
    · rw [addToChildren]
      refine ⟨_, rfl, ?_⟩
      intro m hm
      simp only [List.mem_singleton] at hm
      subst hm
      rw [neOk_iff]
      simp only [allocateNode, CallChainNode.chain_mk, CallChainNode.children_mk]
      exact ⟨hrem, by simp⟩
    · rw [addToChildren]
      have hsz : sizeOf n < sizeOf (n :: ns) ∧ sizeOf ns < sizeOf (n :: ns) := by
        simp only [List.cons.sizeOf_spec]
        omega
      by_cases hm : nodeMatchesFront n remaining = true
      · rw [if_pos hm]
        obtain ⟨n2, hn2, hn2ok⟩ := (ih (remaining.length + sizeOf n) (by omega)).1
          n remaining period le_rfl (hp n (by simp)) hm
        rw [hn2]
        refine ⟨_, rfl, ?_⟩
        intro m hmem
        rcases List.mem_cons.mp hmem with rfl | hm2
        · exact hn2ok
        · exact hp m (List.mem_cons_of_mem _ hm2)
      · rw [if_neg hm]
        obtain ⟨ns2, hns2, hns2ok⟩ := (ih (remaining.length + sizeOf ns) (by omega)).2
          ns remaining period le_rfl
          (fun m hmem => hp m (List.mem_cons_of_mem _ hmem)) hrem
        rw [hns2]
        refine ⟨_, rfl, ?_⟩
        intro m hmem
        rcases List.mem_cons.mp hmem with rfl | hm2
        · exact hp m (by simp)
        · exact hns2ok m hm2

theorem addToChildren_ne (nodes : List CallChainNode) (remaining : List SampleEntry)
    (period : Nat) (hp : ∀ n ∈ nodes, neOk n = true) (hrem : remaining ≠ []) :
    ∃ ns2, addToChildren nodes remaining period = some ns2 ∧
      ∀ n ∈ ns2, neOk n = true :=
  (add_ne_aux (remaining.length + sizeOf nodes)).2 nodes remaining period le_rfl hp hrem

/-- The C5 invariant at the root: the root's own `children_period`
equation plus the nodewise invariant everywhere below. -/
def CallChainRoot.ok (r : CallChainRoot) : Bool :=
  (r.children_period == (r.children.map nodeWeight).sum) &&
  r.children.all nodeOk

theorem addCallChain_ok (r : CallChainRoot) (callchain : List SampleEntry)
    (period : Nat) (hr : r.ok = true) :
    ∀ r2, r.addCallChain callchain period = some r2 → r2.ok = true := by
  intro r2 h
  unfold CallChainRoot.addCallChain at h
  split at h
  · exact Option.noConfusion h
  · rename_i cs hcs
    injection h with h2
    subst h2
    unfold CallChainRoot.ok at hr ⊢
    simp only [Bool.and_eq_true, beq_iff_eq, List.all_eq_true] at hr ⊢
    obtain ⟨hall, hsum⟩ := addToChildren_ok r.children callchain period hr.2 cs hcs
    exact ⟨by rw [hsum, ← hr.1], hall⟩

theorem addCallChain_ne (r : CallChainRoot) (callchain : List SampleEntry)
    (period : Nat) (hr : ∀ n ∈ r.children, neOk n = true) (hne : callchain ≠ []) :
    ∃ r2, r.addCallChain callchain period = some r2 ∧
      ∀ n ∈ r2.children, neOk n = true := by
  obtain ⟨cs, hcs, hcsok⟩ := addToChildren_ne r.children callchain period hr hne
  unfold CallChainRoot.addCallChain
  rw [hcs]
  exact ⟨_, rfl, hcsok⟩

theorem addAll_ok (adds : List (List SampleEntry × Nat)) :
    ∀ r : CallChainRoot, r.ok = true →
      ∀ r2, CallChainRoot.addAll r adds = some r2 → r2.ok = true := by
  induction adds with
  | nil =>
    intro r hr r2 h
    rw [CallChainRoot.addAll] at h
    injection h with h2
    subst h2
    exact hr
  | cons a rest ih =>
    intro r hr r2 h
    rw [CallChainRoot.addAll] at h
    split at h
    · exact Option.noConfusion h
    · rename_i r1 hr1
      exact ih r1 (addCallChain_ok r a.1 a.2 hr r1 hr1) r2 h

theorem addAll_ne (adds : List (List SampleEntry × Nat))
    (hne : ∀ a ∈ adds, a.1 ≠ []) :
    ∀ r : CallChainRoot, (∀ n ∈ r.children, neOk n = true) →
      ∃ r2, CallChainRoot.addAll r adds = some r2 ∧
        ∀ n ∈ r2.children, neOk n = true := by
  induction adds with
  | nil =>
    intro r hr
    exact ⟨r, rfl, hr⟩
  | cons a rest ih =>
    intro r hr
    obtain ⟨r1, hr1, hr1ok⟩ := addCallChain_ne r a.1 a.2 hr (hne a (by simp))
    obtain ⟨r2, hr2, hr2ok⟩ := ih (fun x hx => hne x (by simp [hx])) r1 hr1ok
    refine ⟨r2, ?_, hr2ok⟩
    rw [CallChainRoot.addAll, hr1]
    exact hr2

/-- C5: after any sequence of `AddCallChain(chain, period)` calls on
non-empty chains starting from a fresh root, every node `n` of the
resulting tree — and the root itself — satisfies
`n.children_period = Σ over children c of (c.period + c.children_period)`:
both the descend/append path and the `SplitNode` path preserve the
equation. -/
theorem addCallChain_children_period_invariant
    (adds : List (List SampleEntry × Nat)) ( _hne : ∀ a ∈ adds, a.1 ≠ [])
    (r : CallChainRoot)
    (h : CallChainRoot.addAll CallChainRoot.empty adds = some r) :
    CallChainRoot.ok r = true :=
  addAll_ok adds CallChainRoot.empty rfl r h

def sA : SampleEntry := ⟨[65]⟩

def sB : SampleEntry := ⟨[66]⟩

def addsC5 : List (List SampleEntry × Nat) := [([sA], 3), ([sA, sB], 2)]

def rC5 : CallChainRoot := ⟨5, [.mk [sA] 3 2 [.mk [sB] 2 0 []]]⟩

theorem addCallChain_children_period_invariant_witness :
    CallChainRoot.ok rC5 = true :=
  addCallChain_children_period_invariant addsC5 (by decide) rC5 (by
    simp [CallChainRoot.addAll, CallChainRoot.addCallChain, addToChildren, addToNode,
      addsC5, sA, sB, rC5, matchSamples, matchSample, nodeMatchesFront, allocateNode,
      bumpPeriod, bumpChildrenPeriod, setChildren, appendChild, splitNode,
      CallChainRoot.empty])

/-- C10: a non-empty callchain never makes `AddCallChain` fail: starting
from a fresh root, after any sequence of calls on non-empty chains the
`CHECK_GT(match_count, 0u)` assertion holds on every descent (a failing
`CHECK` is modelled as `none`, and the whole sequence returns `some`),
no empty-chain node is ever created, so `chain.front()` and
`callchain[pos]` stay in bounds. -/
theorem addCallChain_check_safe (adds : List (List SampleEntry × Nat))
    (hne : ∀ a ∈ adds, a.1 ≠ []) :
    ∃ r, CallChainRoot.addAll CallChainRoot.empty adds = some r ∧
      ∀ n ∈ r.children, neOk n = true :=
  addAll_ne adds hne CallChainRoot.empty (by
    intro n hn
    simp [CallChainRoot.empty] at hn)

def addsC10 : List (List SampleEntry × Nat) := [([sA], 1), ([sB], 1), ([sA, sA], 4)]

theorem addCallChain_check_safe_witness :
    ∃ r, CallChainRoot.addAll CallChainRoot.empty addsC10 = some r ∧
      ∀ n ∈ r.children, neOk n = true :=
  addCallChain_check_safe addsC10 (by decide)

/-! ## DSO symbol lookup (dso.cpp)

`DsoEntry::symbols` is a `std::set` ordered by `SymbolComparator`
(`symbol1->addr < symbol2->addr`, dso.cpp:25-28), modelled as a list
sorted strictly by `addr`.  `FindSymbol` (dso.cpp:30-43) takes
`upper_bound` of the offset and steps back once: the last entry with
`addr ≤ offset_in_dso`. -/

structure SymbolEntry where
  name : List Nat
  addr : Nat
  len : Nat
  deriving DecidableEq

/-- `DsoEntry::FindSymbol(offset_in_dso)` (dso.cpp:30-43).  The candidate
is the last symbol with `addr ≤ offset_in_dso` (`upper_bound` then `--it`
on the sorted set); it is returned iff additionally
`addr + len > offset_in_dso`, the sum computed in `uint64_t`. -/
def findSymbol (symbols : List SymbolEntry) (offset_in_dso : Nat) : Option SymbolEntry :=
  match (symbols.takeWhile fun s => s.addr ≤ offset_in_dso).getLast? with
  | none => none
  | some s =>
    if s.addr ≤ offset_in_dso ∧ offset_in_dso < (s.addr + s.len) % 2 ^ 64 then
      some s
    else none

theorem mem_takeWhile_of_le (symbols : List SymbolEntry) (off : Nat)
    (hs : List.Pairwise (fun a b => a.addr < b.addr) symbols) :
    ∀ t ∈ symbols, t.addr ≤ off →
      t ∈ symbols.takeWhile fun s => s.addr ≤ off := by
  induction symbols with
  | nil => simp
  | cons a rest ih =>
    intro t ht hle
    by_cases ha : a.addr ≤ off
    · rw [List.takeWhile_cons_of_pos (by simpa using ha)]
      rcases List.mem_cons.mp ht with rfl | ht2
      · exact List.mem_cons_self _ _
      · exact List.mem_cons_of_mem _ (ih hs.of_cons t ht2 hle)
    · exfalso
      rcases List.mem_cons.mp ht with rfl | ht2
      · exact ha hle
      · have := (List.pairwise_cons.mp hs).1 t ht2
        omega

theorem pairwise_getLast_max (l : List SymbolEntry)
    (hp : List.Pairwise (fun a b => a.addr < b.addr) l) (s : SymbolEntry)
    (h : l.getLast? = some s) : ∀ t ∈ l, t = s ∨ t.addr < s.addr := by
  induction l with
  | nil => exact Option.noConfusion h
  | cons a rest ih =>
    intro t ht
    cases rest with
    | nil =>
      simp only [List.getLast?_singleton, Option.some.injEq] at h
      subst h
      simp only [List.mem_singleton] at ht
      exact Or.inl ht
    | cons b rs =>
      rw [List.getLast?_cons_cons] at h
      have hsmem : s ∈ b :: rs := List.mem_of_getLast?_eq_some h
      rcases List.mem_cons.mp ht with rfl | ht2
      · exact Or.inr ((List.pairwise_cons.mp hp).1 s hsmem)
      · exact ih hp.of_cons h t ht2

/-- C6: on a symbol table strictly sorted by `addr` (the `std::set`
order), `FindSymbol(offset)` returns exactly the entry with the largest
`addr ≤ offset` — and only when that entry also satisfies
`addr + len > offset` in `uint64_t` arithmetic; in every other case it
returns null, the caller's unknown-symbol case. -/
theorem findSymbol_spec (symbols : List SymbolEntry) (off : Nat)
    (hs : List.Chain' (fun a b => a.addr < b.addr) symbols) :
    (∀ s, findSymbol symbols off = some s →
      s ∈ symbols ∧ s.addr ≤ off ∧ off < (s.addr + s.len) % 2 ^ 64 ∧
        ∀ t ∈ symbols, t.addr ≤ off → t.addr ≤ s.addr) ∧
    (findSymbol symbols off = none →
      ∀ t ∈ symbols, t.addr ≤ off →
        (∀ u ∈ symbols, u.addr ≤ off → u.addr ≤ t.addr) →
        ¬ off < (t.addr + t.len) % 2 ^ 64) := by
  haveI : IsTrans SymbolEntry (fun a b => a.addr < b.addr) :=
    ⟨fun a b c hab hbc => Nat.lt_trans hab hbc⟩
  have hpw : List.Pairwise (fun a b => a.addr < b.addr) symbols :=
    List.chain'_iff_pairwise.mp hs
  have hpwtw : List.Pairwise (fun a b => a.addr < b.addr)
      (symbols.takeWhile fun s => s.addr ≤ off) :=
    List.Pairwise.sublist (List.takeWhile_sublist _) hpw
  constructor
  · intro s h
    unfold findSymbol at h
    split at h
    · exact Option.noConfusion h
    · rename_i s2 hlast
      split at h
      · rename_i hcond
        injection h with h2
        rw [← h2]
        have hmemtw : s2 ∈ symbols.takeWhile fun x => x.addr ≤ off :=
          List.mem_of_getLast?_eq_some hlast
        have hmem : s2 ∈ symbols :=
          List.Sublist.mem hmemtw (List.takeWhile_sublist _)
        refine ⟨hmem, hcond.1, hcond.2, ?_⟩
        intro t ht htle
        have httw := mem_takeWhile_of_le symbols off hpw t ht htle
        rcases pairwise_getLast_max _ hpwtw s2 hlast t httw with rfl | hlt
        · exact Nat.le_refl _
        · exact Nat.le_of_lt hlt
      · exact Option.noConfusion h
  · intro h t ht htle hmax hrange
    unfold findSymbol at h
    split at h
    · rename_i hlast
      have httw := mem_takeWhile_of_le symbols off hpw t ht htle
      rw [List.getLast?_eq_none_iff] at hlast
      rw [hlast] at httw
      exact absurd httw (List.not_mem_nil t)
    · rename_i s hlast
      have hmemtw : s ∈ symbols.takeWhile fun x => x.addr ≤ off :=
        List.mem_of_getLast?_eq_some hlast
      have hsle : s.addr ≤ off := by
        have := List.mem_takeWhile_imp hmemtw
        simpa using this
      have hsmem : s ∈ symbols :=
        List.Sublist.mem hmemtw (List.takeWhile_sublist _)
      have httw := mem_takeWhile_of_le symbols off hpw t ht htle
      have hts : t = s := by
        rcases pairwise_getLast_max _ hpwtw s hlast t httw with rfl | hlt
        · rfl
        · have := hmax s hsmem hsle
          omega
      subst hts
      rw [if_pos (And.intro htle hrange)] at h
      exact Option.noConfusion h

def symsC6 : List SymbolEntry :=
  [⟨[102], 16, 16⟩, ⟨[103], 48, 8⟩]

theorem findSymbol_spec_witness :
    (∀ s, findSymbol symsC6 20 = some s →
      s ∈ symsC6 ∧ s.addr ≤ 20 ∧ 20 < (s.addr + s.len) % 2 ^ 64 ∧
        ∀ t ∈ symsC6, t.addr ≤ 20 → t.addr ≤ s.addr) ∧
    (findSymbol symsC6 20 = none →
      ∀ t ∈ symsC6, t.addr ≤ 20 →
        (∀ u ∈ symsC6, u.addr ≤ 20 → u.addr ≤ t.addr) →
        ¬ 20 < (t.addr + t.len) % 2 ^ 64) :=
  findSymbol_spec symsC6 20 (by simp [symsC6])

/-! ## Group open (event_selection_set.cpp:358-385)

`EventSelectionSet::OpenEventFilesOnGroup` opens one `EventFd` per
selection of a group for a fixed `(tid, cpu)`.  The syscall wrapper
`EventFd::OpenEventFile(attr, tid, cpu, group_fd)` is abstracted as an
oracle `openFile : Nat → Option Nat → Option Nat` from the selection
index and the `group_fd` argument to the opened fd (`none` = open
failed).  The call site passes a non-null `failed_event_type`, so an open
failure returns false (`none`) at once.

The loop keeps `EventFd* group_fd = nullptr` and, at the end of each
iteration, runs

  if (group_fd == nullptr) group_fd = event_fd.get();

after `event_fds.push_back(std::move(event_fd))` has already moved the
local `event_fd` out, so `event_fd.get()` is the moved-from null pointer.
The model records, per iteration, the `group_fd` value passed to
`OpenEventFile`, together with the fds collected in `event_fds`. -/

def openGroupGo (openFile : Nat → Option Nat → Option Nat) :
    List Nat → Option Nat → Option (List (Option Nat) × List Nat)
  | [], _ => some ([], [])
  | sel :: rest, group_fd =>
    match openFile sel group_fd with
    | some fd =>
      match openGroupGo openFile rest
          (if group_fd = none then (none : Option Nat) else group_fd) with
      | some (tr, fds) => some (group_fd :: tr, fd :: fds)
      | none => none
    | none => none

/-- `OpenEventFilesOnGroup` for one `(tid, cpu)`: the loop starts with
`group_fd = nullptr`; on success it returns the per-selection
`group_fd` arguments and the opened fds. -/
def openEventFilesOnGroup (openFile : Nat → Option Nat → Option Nat)
    (group : List Nat) : Option (List (Option Nat) × List Nat) :=
  openGroupGo openFile group none

theorem openGroupGo_none_trace (openFile : Nat → Option Nat → Option Nat)
    (hsucc : ∀ i l, openFile i l ≠ none) :
    ∀ sels : List Nat, ∃ tr fds,
      openGroupGo openFile sels none = some (tr, fds) ∧
        tr = List.replicate sels.length none := by
  intro sels
  induction sels with
  | nil => exact ⟨[], [], rfl, rfl⟩
  | cons sel rest ih =>
    obtain ⟨tr, fds, hgo, htr⟩ := ih
    rw [openGroupGo]
    cases hfd : openFile sel none with
    | none => exact absurd hfd (hsucc sel none)
    | some fd =>
      have hif : (if (none : Option Nat) = none then (none : Option Nat) else none)
          = none := if_pos rfl
      rw [hif, hgo]
      exact ⟨none :: tr, fd :: fds, rfl, by rw [htr, List.length_cons,
        List.replicate_succ]⟩

/-- C4: in `OpenEventFilesOnGroup`, `group_fd = event_fd.get()` executes
after `event_fds.push_back(std::move(event_fd))`, so it stores the
moved-from null pointer: `group_fd` remains null for the whole loop, and
every selection of the group — not only the first — is opened with a null
group leader.  For any group in which every open succeeds, the sequence
of `group_fd` arguments passed to `OpenEventFile` is `none` at every
position, contradicting the specified behaviour of passing the first
opened file as the leader of the remaining selections. -/
theorem openEventFilesOnGroup_leader_always_null
    (openFile : Nat → Option Nat → Option Nat)
    (hsucc : ∀ i l, openFile i l ≠ none) (group : List Nat) :
    ∃ tr fds, openEventFilesOnGroup openFile group = some (tr, fds) ∧
      tr = List.replicate group.length none := by
  unfold openEventFilesOnGroup
  exact openGroupGo_none_trace openFile hsucc group

theorem openEventFilesOnGroup_leader_always_null_witness :
    ∃ tr fds,
      openEventFilesOnGroup (fun i _ => some (i + 100)) [0, 1] = some (tr, fds) ∧
        tr = List.replicate ([0, 1] : List Nat).length none :=
  openEventFilesOnGroup_leader_always_null (fun i _ => some (i + 100))
    (fun i l => by simp) [0, 1]

end Simpleperf
